import Mathlib

/-!
# gmail_address_verifier: the worker-pool pipeline of `main.go`

The program reads a worker count and a list of e-mail addresses, starts the
workers (`verifyEmail`), feeds the addresses through a buffered channel of
capacity 10, closes the channel and waits on a `sync.WaitGroup`.

The embedding is a small-step transition system.  One step is one statement (or
one blocking channel operation) of one goroutine; a schedule is a list of
goroutine names, and `run` executes a schedule.  The two library calls whose
result depends on the outside world, `http.NewRequest` and `client.Do`, are
fields of an `Env`.  Lines printed by `log.Debugf` are not part of the model.
-/

namespace GmailVerifier

/-! ## Data model -/

/-- Model of `http.Header` (`map[string][]string`) as an association list.
Keys are the canonical MIME header keys, as the `net/http` parser produces
them; every key literal used by `main.go` is already canonical. -/
structure Header where
  entries : List (String × List String)
deriving DecidableEq, Repr

/-- Model of `Header.Get(key)`: the first value stored under `key`, or the
empty string when the key is absent or has no value. -/
def Header.Get (h : Header) (key : String) : String :=
  match h.entries.lookup key with
  | some (v :: _) => v
  | _ => ""

/-- Model of `Header.Add(key, value)`: appends `value` to the values stored
under `key`. -/
def Header.Add (h : Header) (key value : String) : Header :=
  match h.entries.lookup key with
  | some vs => ⟨h.entries.map fun kv => if kv.1 = key then (kv.1, vs ++ [value]) else kv⟩
  | none => ⟨h.entries ++ [(key, [value])]⟩

/-- Model of the part of `*http.Request` the program touches. -/
structure Request where
  method : String
  url : String
  header : Header
deriving DecidableEq, Repr

/-- Model of the part of `*http.Response` the program touches. -/
structure Response where
  header : Header
deriving DecidableEq, Repr

/-- The outside world: the two library calls of `verifyEmail` whose result is
not determined by the program.  Each returns Go's pair `(value, err)`; a nil
pointer is `none`, a nil error is `none`. -/
structure Env where
  newRequest : String → String → Option Request × Option String
  clientDo : Request → Option Response × Option String

/-- The constant `GmailAPIBaseURL` (line 14). -/
def GmailAPIBaseURL : String := "https://mail.google.com/mail/gxlu?email="

/-- The function `commonHeaders` (lines 115-122).  Go iterates a map in an
unspecified order; the four keys are distinct, so the header map built from
them is the same in every order. -/
def commonHeaders : List (String × String) :=
  [ ("Accept", "text/html,application/xhtml+xml,application/xml;q=0.9,image/webp,*/*;q=0.8"),
    ("User-Agent", "Mozilla/5.0 (Windows NT 6.1; Win64; x64) AppleWebKit/537.36 (KHTML, like Gecko) Chrome/56.0.2924.87 Safari/537.36"),
    ("Accept-Encoding", "gzip, deflate, sdch, br"),
    ("Accept-Language", "en-US,en;q=0.8") ]

/-- The loop of lines 77-79 on a non-nil request: one `Header.Add` per entry of
`commonHeaders`. -/
def addCommonHeaders (req : Request) : Request :=
  commonHeaders.foldl (fun r kv => { r with header := r.header.Add kv.1 kv.2 }) req

/-- One line written to standard output by `verifyEmail`. -/
inductive Report where
  /-- Line 73: `Error creating verification request for <email>`. -/
  | errorCreating (err : String) (email : String)
  /-- Line 85: `Error verifiying email address <email>`. -/
  | errorVerifying (err : String) (email : String)
  /-- Line 92: `printValid`. -/
  | valid (email : String)
  /-- Line 95: `printInvalid`. -/
  | invalid (email : String)
deriving DecidableEq, Repr

/-- Model of `if err != nil { log.WithError(err).Errorf(...) }` (lines 72-74 and
84-86): the error line is written when `err` is not nil, and execution goes on
either way. -/
def logIfErr (err : Option String) (line : String → Report) (out : List Report) : List Report :=
  match err with
  | some e => out ++ [line e]
  | none => out

/-- Program counter of the goroutine running `main`, from line 40 on. -/
inductive MainPC where
  /-- At the loop head of line 43 with loop counter `i`. -/
  | spawn (i : Nat)
  /-- At the loop head of line 49; `rest` are the addresses not yet sent. -/
  | feed (rest : List String)
  /-- At `wg.Wait()` (line 56); the channel has been closed. -/
  | wait
  /-- Function `main` has returned; the process has exited. -/
  | returned
deriving DecidableEq, Repr

/-- Program counter and local variables of one goroutine running
`verifyEmail`. -/
inductive WorkerPC where
  /-- At `range jobQueue` (line 63), about to receive. -/
  | recv
  /-- At line 71, holding `email`. -/
  | newReq (email : String)
  /-- At the loop of lines 77-79, with the `req` returned by `NewRequest`. -/
  | addHeaders (email : String) (req : Option Request)
  /-- At line 83, about to call `client.Do`. -/
  | doReq (email : String) (req : Request)
  /-- At line 88, with the `resp` returned by `client.Do`. -/
  | classify (email : String) (resp : Option Response)
  /-- The goroutine has returned and its deferred `wg.Done()` has run. -/
  | done
  /-- The goroutine has panicked, its deferred call has run, and the runtime is
  about to abort the process. -/
  | panicking
deriving DecidableEq, Repr

/-- Global state of the process. -/
structure State where
  main : MainPC
  /-- Buffer of the channel `jobQ`, oldest element first. -/
  jobQ : List String
  /-- Whether `close(jobQ)` has been executed. -/
  closed : Bool
  /-- Counter of the `sync.WaitGroup`. -/
  wg : Nat
  /-- The goroutines started by line 45, in start order. -/
  workers : List WorkerPC
  /-- Lines written to standard output so far, oldest first. -/
  out : List Report
  /-- The process has been aborted by an unrecovered panic. -/
  crashed : Bool
deriving DecidableEq, Repr

/-- Command-line configuration: `*noOfWorkers` and `*emails`. -/
structure Config where
  noOfWorkers : Int
  emails : List String
deriving DecidableEq, Repr

/-- Capacity of `jobQ` (line 40). -/
def jobQCap : Nat := 10

/-- State at line 40, after `make(chan string, 10)`. -/
def initState : State :=
  { main := .spawn 0, jobQ := [], closed := false, wg := 0, workers := [],
    out := [], crashed := false }

/-! ## Steps -/

/-- One step of `main`.  `none` means that `main` is blocked (or has
returned). -/
def stepMain (cfg : Config) (s : State) : Option State :=
  match s.main with
  | .spawn i =>
    if (i : Int) < cfg.noOfWorkers then
      -- lines 44-45: wg.Add(1); go verifyEmail(jobQ, &wg)
      some { s with wg := s.wg + 1, workers := s.workers ++ [.recv], main := .spawn (i + 1) }
    else
      some { s with main := .feed cfg.emails }
  | .feed (email :: rest) =>
    -- line 50: jobQ <- email; a send on a closed channel panics
    if s.closed then some { s with crashed := true }
    else if s.jobQ.length < jobQCap then
      some { s with jobQ := s.jobQ ++ [email], main := .feed rest }
    else none
  | .feed [] =>
    -- line 54: close(jobQ); closing a closed channel panics
    if s.closed then some { s with crashed := true }
    else some { s with closed := true, main := .wait }
  | .wait =>
    -- line 56: wg.Wait()
    if s.wg = 0 then some { s with main := .returned } else none
  | .returned => none

/-- The deferred `wg.Done()` of line 61, run by worker `i` when it leaves
`verifyEmail`, normally (`after = done`) or by a panic (`after = panicking`).
A counter that would become negative makes `Done` itself panic. -/
def runDeferred (i : Nat) (after : WorkerPC) (s : State) : State :=
  if s.wg = 0 then { s with workers := s.workers.set i .panicking }
  else { s with wg := s.wg - 1, workers := s.workers.set i after }

/-- One step of the worker at position `i`.  `none` means the worker does not
exist, is blocked on the empty open channel, or has returned. -/
def stepWorker (env : Env) (i : Nat) (s : State) : Option State :=
  match s.workers.get? i with
  | none => none
  | some .recv =>
    match s.jobQ with
    | email :: q => some { s with jobQ := q, workers := s.workers.set i (.newReq email) }
    | [] => if s.closed then some (runDeferred i .done s) else none
  | some (.newReq email) =>
    -- lines 69-74
    let r := env.newRequest "GET" (GmailAPIBaseURL ++ email)
    some { s with
      out := logIfErr r.2 (fun err => .errorCreating err email) s.out,
      workers := s.workers.set i (.addHeaders email r.1) }
  | some (.addHeaders email req) =>
    -- lines 77-79: commonHeaders is non-empty, so req.Header is dereferenced
    match req with
    | none => some (runDeferred i .panicking s)
    | some rq => some { s with workers := s.workers.set i (.doReq email (addCommonHeaders rq)) }
  | some (.doReq email req) =>
    -- lines 83-86
    let r := env.clientDo req
    some { s with
      out := logIfErr r.2 (fun err => .errorVerifying err email) s.out,
      workers := s.workers.set i (.classify email r.1) }
  | some (.classify email resp) =>
    -- lines 88-96
    match resp with
    | none => some (runDeferred i .panicking s)
    | some rp =>
      if (rp.header.Get "Set-Cookie").length > 0 then
        some { s with out := s.out ++ [.valid email], workers := s.workers.set i .recv }
      else
        some { s with out := s.out ++ [.invalid email], workers := s.workers.set i .recv }
  | some .done => none
  | some .panicking => some { s with crashed := true }

/-- Name of a goroutine. -/
inductive Action where
  | main
  | worker (i : Nat)
deriving DecidableEq, Repr

/-- One step of the process: the scheduler lets goroutine `a` run.  Nothing
runs once the process has exited, by the return of `main` or by a panic. -/
def step (env : Env) (cfg : Config) (a : Action) (s : State) : Option State :=
  if s.crashed ∨ s.main = .returned then none
  else match a with
    | .main => stepMain cfg s
    | .worker i => stepWorker env i s

/-- Execution of a schedule. -/
def run (env : Env) (cfg : Config) : List Action → State → Option State
  | [], s => some s
  | a :: as, s => (step env cfg a s).bind (run env cfg as)

/-- State `s` is reached by some schedule from the initial state. -/
def Reachable (env : Env) (cfg : Config) (s : State) : Prop :=
  ∃ sched, run env cfg sched initState = some s

/-- No goroutine can take a step. -/
def Stuck (env : Env) (cfg : Config) (s : State) : Prop :=
  ∀ a, step env cfg a s = none

/-- A table-driven environment: `NewRequest` fails exactly on the listed
addresses, `Do` answers from a table keyed by URL (and fails at the transport
layer for a URL that is absent from the table). -/
def tableEnv (badReq : List String) (table : List (String × (Option Response × Option String))) : Env where
  newRequest := fun m u =>
    if badReq.any (fun e => GmailAPIBaseURL ++ e == u) then (none, some "parse error")
    else (some ⟨m, u, ⟨[]⟩⟩, none)
  clientDo := fun rq =>
    match table.lookup rq.url with
    | some r => r
    | none => (none, some "timeout")


/-! ## Observations on states -/

/-- Sum of a natural-number measure over the workers. -/
def tally (f : WorkerPC → Nat) (ws : List WorkerPC) : Nat := (ws.map f).sum

/-- The address a worker holds (received and not yet classified), if any. -/
def WorkerPC.held : WorkerPC → List String
  | .newReq e => [e]
  | .addHeaders e _ => [e]
  | .doReq e _ => [e]
  | .classify e _ => [e]
  | _ => []

/-- Number of copies of address `a` held by a worker (0 or 1). -/
def WorkerPC.heldCount (a : String) (w : WorkerPC) : Nat := w.held.count a

/-- Number of addresses held by a worker (0 or 1). -/
def WorkerPC.holding (w : WorkerPC) : Nat := w.held.length

/-- Is 1 for a worker whose deferred `wg.Done()` has not run yet. -/
def WorkerPC.active : WorkerPC → Nat
  | .done => 0
  | .panicking => 0
  | _ => 1

/-- Is 1 for a worker that has returned. -/
def WorkerPC.isDone : WorkerPC → Nat
  | .done => 1
  | _ => 0

/-- Is 1 for a worker that has panicked. -/
def WorkerPC.isPanicking : WorkerPC → Nat
  | .panicking => 1
  | _ => 0

/-- Is 1 for a worker that is not waiting at `range jobQueue`. -/
def WorkerPC.notRecv : WorkerPC → Nat
  | .recv => 0
  | _ => 1

/-- The address a verdict line (valid or invalid) is about. -/
def Report.verdictOf : Report → Option String
  | .valid e => some e
  | .invalid e => some e
  | _ => none

/-- Addresses with a verdict line, in output order. -/
def verdicts (out : List Report) : List String := out.filterMap Report.verdictOf

/-- Addresses that `main` has not sent to the channel yet. -/
def unsent (cfg : Config) : MainPC → List String
  | .spawn _ => cfg.emails
  | .feed rest => rest
  | _ => []

/-- Addresses in flight: sent by `main` and not yet classified. -/
def inFlight (s : State) : Nat := s.jobQ.length + tally WorkerPC.holding s.workers

/-- The process has exited: `main` has returned or a panic has aborted it. -/
def Terminal (s : State) : Prop := s.main = .returned ∨ s.crashed = true

instance (s : State) : Decidable (Terminal s) := by unfold Terminal; infer_instance

/-! ## The step relation, one constructor per statement -/

/-- The relation of `step`, with one constructor for each branch of `stepMain`
and `stepWorker`. -/
inductive Step (env : Env) (cfg : Config) : State → State → Prop where
  | spawn (s : State) (i : Nat) (hc : s.crashed = false) (hm : s.main = .spawn i)
      (hlt : (i : Int) < cfg.noOfWorkers) :
      Step env cfg s { s with wg := s.wg + 1, workers := s.workers ++ [.recv], main := .spawn (i + 1) }
  | startFeed (s : State) (i : Nat) (hc : s.crashed = false) (hm : s.main = .spawn i)
      (hge : ¬ (i : Int) < cfg.noOfWorkers) :
      Step env cfg s { s with main := .feed cfg.emails }
  | sendClosed (s : State) (email : String) (rest : List String) (hc : s.crashed = false)
      (hm : s.main = .feed (email :: rest)) (hcl : s.closed = true) :
      Step env cfg s { s with crashed := true }
  | send (s : State) (email : String) (rest : List String) (hc : s.crashed = false)
      (hm : s.main = .feed (email :: rest)) (hcl : s.closed = false)
      (hlen : s.jobQ.length < jobQCap) :
      Step env cfg s { s with jobQ := s.jobQ ++ [email], main := .feed rest }
  | closeClosed (s : State) (hc : s.crashed = false) (hm : s.main = .feed [])
      (hcl : s.closed = true) :
      Step env cfg s { s with crashed := true }
  | close (s : State) (hc : s.crashed = false) (hm : s.main = .feed [])
      (hcl : s.closed = false) :
      Step env cfg s { s with closed := true, main := .wait }
  | waitDone (s : State) (hc : s.crashed = false) (hm : s.main = .wait) (hwg : s.wg = 0) :
      Step env cfg s { s with main := .returned }
  | recvItem (s : State) (i : Nat) (email : String) (q : List String) (hc : s.crashed = false)
      (hm : s.main ≠ .returned) (hw : s.workers.get? i = some .recv) (hq : s.jobQ = email :: q) :
      Step env cfg s { s with jobQ := q, workers := s.workers.set i (.newReq email) }
  | recvExit (s : State) (i : Nat) (hc : s.crashed = false)
      (hm : s.main ≠ .returned) (hw : s.workers.get? i = some .recv) (hq : s.jobQ = [])
      (hcl : s.closed = true) :
      Step env cfg s (runDeferred i .done s)
  | newReq (s : State) (i : Nat) (email : String) (hc : s.crashed = false)
      (hm : s.main ≠ .returned) (hw : s.workers.get? i = some (.newReq email)) :
      Step env cfg s
        { s with
          out := logIfErr (env.newRequest "GET" (GmailAPIBaseURL ++ email)).2
            (fun err => .errorCreating err email) s.out,
          workers := s.workers.set i
            (.addHeaders email (env.newRequest "GET" (GmailAPIBaseURL ++ email)).1) }
  | addNil (s : State) (i : Nat) (email : String) (hc : s.crashed = false)
      (hm : s.main ≠ .returned) (hw : s.workers.get? i = some (.addHeaders email none)) :
      Step env cfg s (runDeferred i .panicking s)
  | addOk (s : State) (i : Nat) (email : String) (rq : Request) (hc : s.crashed = false)
      (hm : s.main ≠ .returned) (hw : s.workers.get? i = some (.addHeaders email (some rq))) :
      Step env cfg s { s with workers := s.workers.set i (.doReq email (addCommonHeaders rq)) }
  | doReq (s : State) (i : Nat) (email : String) (req : Request) (hc : s.crashed = false)
      (hm : s.main ≠ .returned) (hw : s.workers.get? i = some (.doReq email req)) :
      Step env cfg s
        { s with
          out := logIfErr (env.clientDo req).2 (fun err => .errorVerifying err email) s.out,
          workers := s.workers.set i (.classify email (env.clientDo req).1) }
  | classifyNil (s : State) (i : Nat) (email : String) (hc : s.crashed = false)
      (hm : s.main ≠ .returned) (hw : s.workers.get? i = some (.classify email none)) :
      Step env cfg s (runDeferred i .panicking s)
  | classifyValid (s : State) (i : Nat) (email : String) (rp : Response) (hc : s.crashed = false)
      (hm : s.main ≠ .returned) (hw : s.workers.get? i = some (.classify email (some rp)))
      (hck : (rp.header.Get "Set-Cookie").length > 0) :
      Step env cfg s { s with out := s.out ++ [.valid email], workers := s.workers.set i .recv }
  | classifyInvalid (s : State) (i : Nat) (email : String) (rp : Response) (hc : s.crashed = false)
      (hm : s.main ≠ .returned) (hw : s.workers.get? i = some (.classify email (some rp)))
      (hck : ¬ (rp.header.Get "Set-Cookie").length > 0) :
      Step env cfg s { s with out := s.out ++ [.invalid email], workers := s.workers.set i .recv }
  | abort (s : State) (i : Nat) (hc : s.crashed = false)
      (hm : s.main ≠ .returned) (hw : s.workers.get? i = some .panicking) :
      Step env cfg s { s with crashed := true }

/-- The invariant of the pipeline: what holds in every reachable state,
whatever the environment answers. -/
structure Inv (cfg : Config) (s : State) : Prop where
  /-- While workers are being started nothing has been sent and every worker is
  waiting at the channel. -/
  spawnPhase : ∀ i, s.main = .spawn i →
    i ≤ cfg.noOfWorkers.toNat ∧ s.workers.length = i ∧ s.jobQ = [] ∧ s.out = [] ∧
      tally WorkerPC.notRecv s.workers = 0
  /-- After the start loop there are exactly `noOfWorkers` workers (none if that
  number is not positive). -/
  poolSize : (∀ i, s.main ≠ .spawn i) → s.workers.length = cfg.noOfWorkers.toNat
  /-- The addresses still to send are a suffix of the input. -/
  feedPhase : ∀ rest, s.main = .feed rest → rest <:+ cfg.emails
  /-- The channel is closed exactly when `main` is past line 54. -/
  closedIff : s.closed = true ↔ (s.main = .wait ∨ s.main = .returned)
  /-- The buffer never exceeds the capacity. -/
  cap : s.jobQ.length ≤ jobQCap
  /-- The WaitGroup counter is the number of workers whose `Done` is pending. -/
  wgCount : s.wg = tally WorkerPC.active s.workers
  /-- A worker only returns after seeing the channel closed and drained. -/
  doneEmpty : 0 < tally WorkerPC.isDone s.workers → s.closed = true ∧ s.jobQ = []
  /-- Unless a worker has panicked, every input address is in exactly one place:
  not yet sent, in the buffer, held by a worker, or reported with a verdict. -/
  acct : tally WorkerPC.isPanicking s.workers = 0 → ∀ a,
    cfg.emails.count a = (unsent cfg s.main).count a + s.jobQ.count a +
      tally (WorkerPC.heldCount a) s.workers + (verdicts s.out).count a

/-! ## The loop of one worker as a function -/

/-- Lines 88-96 as a function: the lines written and whether the goroutine
panics (a nil `resp` is dereferenced at line 88). -/
def classifyOut (email : String) (resp : Option Response) : List Report × Bool :=
  match resp with
  | none => ([], true)
  | some rp =>
    if (rp.header.Get "Set-Cookie").length > 0 then ([.valid email], false)
    else ([.invalid email], false)

/-- Lines 83-96 as a function. -/
def doReqOut (env : Env) (email : String) (req : Request) : List Report × Bool :=
  (logIfErr (env.clientDo req).2 (fun err => .errorVerifying err email) [] ++
      (classifyOut email (env.clientDo req).1).1,
    (classifyOut email (env.clientDo req).1).2)

/-- Lines 77-96 as a function (a nil `req` is dereferenced at line 78). -/
def addHeadersOut (env : Env) (email : String) (req : Option Request) : List Report × Bool :=
  match req with
  | none => ([], true)
  | some rq => doReqOut env email (addCommonHeaders rq)

/-- The body of the loop of `verifyEmail` (lines 65-96) for one address, as a
function: the lines it writes and whether it panics. -/
def verifyOne (env : Env) (email : String) : List Report × Bool :=
  (logIfErr (env.newRequest "GET" (GmailAPIBaseURL ++ email)).2
        (fun err => .errorCreating err email) [] ++
      (addHeadersOut env email (env.newRequest "GET" (GmailAPIBaseURL ++ email)).1).1,
    (addHeadersOut env email (env.newRequest "GET" (GmailAPIBaseURL ++ email)).1).2)

/-- Sequencing of two pieces of output: the second runs unless the first
panicked. -/
def andThen (a b : List Report × Bool) : List Report × Bool :=
  if a.2 then a else (a.1 ++ b.1, b.2)

/-- The loop of `verifyEmail` (lines 63-97) as one goroutine runs it over a list
of addresses: the code's own behaviour, with the error branches that fall
through and the panics that end the loop.  It is the embedding of the code, not
the sequential processing the specification describes, which is
`specSequential`. -/
def verifyEmailLoop (env : Env) : List String → List Report × Bool
  | [] => ([], false)
  | email :: rest => andThen (verifyOne env email) (verifyEmailLoop env rest)

/-- What remains of the current loop iteration of a worker. -/
def WorkerPC.remaining (env : Env) : WorkerPC → List Report × Bool
  | .recv => ([], false)
  | .newReq e => verifyOne env e
  | .addHeaders e req => addHeadersOut env e req
  | .doReq e req => doReqOut env e req
  | .classify e resp => classifyOut e resp
  | .done => ([], false)
  | .panicking => ([], true)

/-- With a single worker: the output still to come, from the worker's position
on through the addresses that are buffered or not yet sent. -/
def seqRest (env : Env) (cfg : Config) (s : State) : List Report × Bool :=
  andThen ((s.workers.headD .recv).remaining env)
    (verifyEmailLoop env (s.jobQ ++ unsent cfg s.main))

/-! ## States of a run without workers -/

/-- State of a run without workers in which `main` has sent the first `k`
addresses. -/
def zeroFeed (cfg : Config) (k : Nat) : State :=
  { main := .feed (cfg.emails.drop k), jobQ := cfg.emails.take k, closed := false, wg := 0,
    workers := [], out := [], crashed := false }

/-- State of a run without workers in which `main` has sent every address and
closed the channel. -/
def zeroWait (cfg : Config) : State :=
  { main := .wait, jobQ := cfg.emails, closed := true, wg := 0, workers := [], out := [],
    crashed := false }

/-- State of a run without workers in which `main` has returned: every address
is still in the buffer and nothing has been written. -/
def zeroReturned (cfg : Config) : State :=
  { main := .returned, jobQ := cfg.emails, closed := true, wg := 0, workers := [], out := [],
    crashed := false }

/-- The states a run without workers can be in. -/
def ZeroInv (cfg : Config) (s : State) : Prop :=
  s = initState ∨ (∃ k, k ≤ 10 ∧ k ≤ cfg.emails.length ∧ s = zeroFeed cfg k) ∨
    (cfg.emails.length ≤ 10 ∧ (s = zeroWait cfg ∨ s = zeroReturned cfg))

/-! ## Header predicates and concrete environments -/

/-- The header map carries one or more values under `key`. -/
def Header.carries (h : Header) (key : String) : Bool :=
  match h.entries.lookup key with
  | some (_ :: _) => true
  | _ => false

/-- The first value stored under `key` exists and is not the empty string. -/
def Header.firstValueNonEmpty (h : Header) (key : String) : Bool :=
  match h.entries.lookup key with
  | some (v :: _) => v != ""
  | _ => false

/-- A response with one `Set-Cookie` header of value `v`. -/
def cookieResponse (v : String) : Response := ⟨⟨[("Set-Cookie", [v])]⟩⟩

/-- A response without any header. -/
def plainResponse : Response := ⟨⟨[]⟩⟩

/-- Environment in which `client.Do` follows ten redirects for `a@gmail.com`
and returns the last response together with an error. -/
def envRedirect : Env :=
  tableEnv [] [(GmailAPIBaseURL ++ "a@gmail.com", (some plainResponse, some "stopped after 10 redirects"))]

/-- Environment in which `client.Do` times out for every address but
`b@gmail.com`, which gets a cookie. -/
def envTimeout : Env :=
  tableEnv [] [(GmailAPIBaseURL ++ "b@gmail.com", (some (cookieResponse "GMAIL_RTT=1"), none))]

/-- Environment in which `http.NewRequest` rejects the URL built from `a#%zz`
(an invalid escape in the fragment) and `b@gmail.com` gets a cookie. -/
def envBadRequest : Env :=
  tableEnv ["a#%zz"] [(GmailAPIBaseURL ++ "b@gmail.com", (some (cookieResponse "GMAIL_RTT=1"), none))]

/-- Environment in which the response for `a@gmail.com` has a `Set-Cookie`
header whose value is empty. -/
def envEmptyCookie : Env :=
  tableEnv [] [(GmailAPIBaseURL ++ "a@gmail.com", (some (cookieResponse ""), none))]

/-- Environment in which exactly `a@gmail.com` and `c@gmail.com` get a cookie
among three addresses. -/
def envSubset : Env :=
  tableEnv [] [(GmailAPIBaseURL ++ "a@gmail.com", (some (cookieResponse "GMAIL_RTT=1"), none)),
    (GmailAPIBaseURL ++ "b@gmail.com", (some plainResponse, none)),
    (GmailAPIBaseURL ++ "c@gmail.com", (some (cookieResponse "GMAIL_RTT=2"), none))]

/-- Schedule for one worker and one address: `main` starts the worker, sends,
closes; the worker processes the address and returns; `main` returns. -/
def schedOne : List Action :=
  [.main, .main, .main, .main, .worker 0, .worker 0, .worker 0, .worker 0, .worker 0,
    .worker 0, .main]

/-! ## Local variables of the workers -/

/-- The request `verifyEmail` sends for `email`, when `NewRequest` returns one. -/
def expectedReq (env : Env) (email : String) : Option Request :=
  (env.newRequest "GET" (GmailAPIBaseURL ++ email)).1.map addCommonHeaders

/-- The response `verifyEmail` gets for `email`, when there is one. -/
def expectedResp (env : Env) (email : String) : Option Response :=
  (expectedReq env email).bind fun rq => (env.clientDo rq).1

/-- The local variables of a worker are what the library calls returned for the
input address it holds. -/
def WorkerOK (env : Env) (cfg : Config) : WorkerPC → Prop
  | .newReq e => e ∈ cfg.emails
  | .addHeaders e req =>
    e ∈ cfg.emails ∧ req = (env.newRequest "GET" (GmailAPIBaseURL ++ e)).1
  | .doReq e req => e ∈ cfg.emails ∧ expectedReq env e = some req
  | .classify e resp =>
    e ∈ cfg.emails ∧ ∃ rq, expectedReq env e = some rq ∧ resp = (env.clientDo rq).1
  | _ => True

/-- An output line is about an input address and says what the library calls
returned for it. -/
def ReportOK (env : Env) (cfg : Config) : Report → Prop
  | .errorCreating err e =>
    e ∈ cfg.emails ∧ (env.newRequest "GET" (GmailAPIBaseURL ++ e)).2 = some err
  | .errorVerifying err e =>
    e ∈ cfg.emails ∧ ∃ rq, expectedReq env e = some rq ∧ (env.clientDo rq).2 = some err
  | .valid e =>
    e ∈ cfg.emails ∧ ∃ rp, expectedResp env e = some rp ∧
      0 < (rp.header.Get "Set-Cookie").length
  | .invalid e =>
    e ∈ cfg.emails ∧ ∃ rp, expectedResp env e = some rp ∧
      ¬ 0 < (rp.header.Get "Set-Cookie").length

/-- Invariant on the data that flows through the pipeline. -/
structure LocalInv (env : Env) (cfg : Config) (s : State) : Prop where
  queue : ∀ e ∈ s.jobQ, e ∈ cfg.emails
  workers : ∀ w ∈ s.workers, WorkerOK env cfg w
  out : ∀ r ∈ s.out, ReportOK env cfg r

/-- A probe oracle that never fails on the input addresses and whose response
satisfies `sets` exactly for the addresses in `S`. -/
def OracleFor (env : Env) (emails S : List String) (sets : Header → Bool) : Prop :=
  ∀ e ∈ emails, ∃ rq rp,
    env.newRequest "GET" (GmailAPIBaseURL ++ e) = (some rq, none) ∧
    env.clientDo (addCommonHeaders rq) = (some rp, none) ∧
    (sets rp.header = true ↔ e ∈ S)

/-- No worker has panicked, the process has not been aborted and every output
line is a verdict. -/
def NoFailure (s : State) : Prop :=
  tally WorkerPC.isPanicking s.workers = 0 ∧ s.crashed = false ∧
    ∀ r ∈ s.out, r.verdictOf ≠ none

/-- Schedule for two workers and three addresses: `main` starts the workers,
sends and closes; worker 0 takes the first address, worker 1 the second,
worker 0 the third; both return; `main` returns. -/
def schedTwo : List Action :=
  [.main, .main, .main, .main, .main, .main, .main,
    .worker 0, .worker 1, .worker 0, .worker 1, .worker 0, .worker 1, .worker 0, .worker 1,
    .worker 0, .worker 1,
    .worker 0, .worker 0, .worker 0, .worker 0, .worker 0,
    .worker 1, .worker 0, .main]

/-! ## Sequential processing as the specification describes it -/

/-- The probe of one address as the specification describes it (`verify`, 4.1):
a GET request to the base URL with the address appended and the browser-like
headers attached; a request-construction failure or a transport failure is an
Error outcome for that address and nothing else is reported for it; otherwise
the address is Valid when the response headers satisfy `sets` and Invalid when
they do not.  The specification's rule is `sets h = h.carries "Set-Cookie"`.  A
nil result without an error, which the library never returns, counts as a
failure without a cause. -/
def specVerify (env : Env) (sets : Header → Bool) (email : String) : Report :=
  match env.newRequest "GET" (GmailAPIBaseURL ++ email) with
  | (_, some err) => .errorCreating err email
  | (none, none) => .errorCreating "" email
  | (some rq, none) =>
    match env.clientDo (addCommonHeaders rq) with
    | (_, some err) => .errorVerifying err email
    | (none, none) => .errorVerifying "" email
    | (some rp, none) => if sets rp.header then .valid email else .invalid email

/-- Strictly sequential processing in input order as the specification
describes it: the addresses are probed and classified one by one, first to
last, one outcome per address, and a failure does not stop the processing. -/
def specSequential (env : Env) (sets : Header → Bool) (emails : List String) : List Report :=
  emails.map (specVerify env sets)

/-- No request fails on the given addresses: `NewRequest` returns a request and
no error, and `client.Do` returns a response and no error. -/
def NeverFails (env : Env) (emails : List String) : Prop :=
  ∀ e ∈ emails, ∃ rq rp,
    env.newRequest "GET" (GmailAPIBaseURL ++ e) = (some rq, none) ∧
    env.clientDo (addCommonHeaders rq) = (some rp, none)

/-- Schedule for one worker and three addresses: `main` starts the worker,
sends and closes; the worker processes the three addresses and returns; `main`
returns. -/
def schedOneThree : List Action :=
  List.replicate 6 .main ++ List.replicate 16 (.worker 0) ++ [.main]

/-! ## Termination measure -/

/-- Upper bound on the number of steps `main` can still take, weighted so that
every step of the process lowers `stepsLeft`. -/
def mainWeight (cfg : Config) : MainPC → Nat
  | .spawn i => 2 * (cfg.noOfWorkers.toNat - i) + 6 * cfg.emails.length + 3
  | .feed rest => 6 * rest.length + 2
  | .wait => 1
  | .returned => 0

/-- Weight of a worker in `stepsLeft`. -/
def WorkerPC.weight : WorkerPC → Nat
  | .recv => 1
  | .newReq _ => 5
  | .addHeaders _ _ => 4
  | .doReq _ _ => 3
  | .classify _ _ => 2
  | .done => 0
  | .panicking => 0

/-- A bound on the number of steps the process can still take. -/
def stepsLeft (cfg : Config) (s : State) : Nat :=
  mainWeight cfg s.main + 5 * s.jobQ.length + tally WorkerPC.weight s.workers +
    (if s.crashed then 0 else 1)

/-! ## Schedules and reachability -/

theorem step_sound {env : Env} {cfg : Config} {a : Action} {s s' : State}
    (h : step env cfg a s = some s') : Step env cfg s s' := by
  unfold step at h
  split at h
  · exact absurd h (by simp)
  · rename_i halive
    have hc : s.crashed = false := by
      cases hcr : s.crashed
      · rfl
      · exact absurd (Or.inl hcr) halive
    have hm : s.main ≠ .returned := fun hr => halive (Or.inr hr)
    cases a with
    | main =>
      simp only [stepMain] at h
      split at h
      · rename_i i hmi
        split at h
        · rename_i hlt
          cases h; exact Step.spawn s i hc hmi hlt
        · rename_i hge
          cases h; exact Step.startFeed s i hc hmi hge
      · rename_i email rest hmi
        split at h
        · rename_i hcl
          cases h; exact Step.sendClosed s email rest hc hmi hcl
        · rename_i hcl
          split at h
          · rename_i hlen
            cases h; exact Step.send s email rest hc hmi (by simpa using hcl) hlen
          · exact absurd h (by simp)
      · rename_i hmi
        split at h
        · rename_i hcl
          cases h; exact Step.closeClosed s hc hmi hcl
        · rename_i hcl
          cases h; exact Step.close s hc hmi (by simpa using hcl)
      · rename_i hmi
        split at h
        · rename_i hwg
          cases h; exact Step.waitDone s hc hmi hwg
        · exact absurd h (by simp)
      · exact absurd h (by simp)
    | worker i =>
      simp only [stepWorker] at h
      split at h
      · exact absurd h (by simp)
      · rename_i hw
        split at h
        · rename_i email q hq
          cases h; exact Step.recvItem s i email q hc hm hw hq
        · rename_i hq
          split at h
          · rename_i hcl
            cases h; exact Step.recvExit s i hc hm hw hq hcl
          · exact absurd h (by simp)
      · rename_i email hw
        cases h; exact Step.newReq s i email hc hm hw
      · rename_i email req hw
        split at h
        · cases h; exact Step.addNil s i email hc hm hw
        · rename_i rq
          cases h; exact Step.addOk s i email rq hc hm hw
      · rename_i email req hw
        cases h; exact Step.doReq s i email req hc hm hw
      · rename_i email resp hw
        split at h
        · cases h; exact Step.classifyNil s i email hc hm hw
        · rename_i rp
          split at h
          · rename_i hck
            cases h; exact Step.classifyValid s i email rp hc hm hw hck
          · rename_i hck
            cases h; exact Step.classifyInvalid s i email rp hc hm hw hck
      · exact absurd h (by simp)
      · rename_i hw
        cases h; exact Step.abort s i hc hm hw

theorem run_append (env : Env) (cfg : Config) (xs ys : List Action) (s : State) :
    run env cfg (xs ++ ys) s = (run env cfg xs s).bind (run env cfg ys) := by
  induction xs generalizing s with
  | nil => simp [run]
  | cons a xs ih =>
    simp only [List.cons_append, run]
    cases step env cfg a s with
    | none => simp
    | some s1 => simpa using ih s1

theorem reachable_init (env : Env) (cfg : Config) : Reachable env cfg initState :=
  ⟨[], rfl⟩

theorem reachable_run {env : Env} {cfg : Config} {s s' : State} (sched : List Action)
    (hs : Reachable env cfg s) (h : run env cfg sched s = some s') : Reachable env cfg s' := by
  obtain ⟨pre, hpre⟩ := hs
  exact ⟨pre ++ sched, by rw [run_append, hpre]; simpa using h⟩

theorem reachable_step {env : Env} {cfg : Config} {s s' : State} (a : Action)
    (hs : Reachable env cfg s) (h : step env cfg a s = some s') : Reachable env cfg s' :=
  reachable_run [a] hs (by simp [run, h])

/-- Induction over the reachable states: a property of the initial state that
every step preserves holds in every reachable state. -/
theorem reachable_induction {env : Env} {cfg : Config} (P : State → Prop)
    (h0 : P initState)
    (hstep : ∀ s s', Reachable env cfg s → P s → Step env cfg s s' → P s')
    {s : State} (hs : Reachable env cfg s) : P s := by
  obtain ⟨sched, hrun⟩ := hs
  have key : ∀ (sched : List Action) (s0 s1 : State), Reachable env cfg s0 → P s0 →
      run env cfg sched s0 = some s1 → P s1 := by
    intro sched
    induction sched with
    | nil =>
      intro s0 s1 _ hp h
      simp only [run, Option.some.injEq] at h
      exact h ▸ hp
    | cons a as ih =>
      intro s0 s1 hr hp h
      simp only [run] at h
      cases hst : step env cfg a s0 with
      | none => simp [hst] at h
      | some s2 =>
        rw [hst] at h
        exact ih s2 s1 (reachable_step a hr hst) (hstep s0 s2 hr hp (step_sound hst)) (by simpa using h)
  exact key sched initState s (reachable_init env cfg) h0 hrun

/-! ## Counting over the workers -/

theorem tally_nil (f : WorkerPC → Nat) : tally f [] = 0 := rfl

theorem tally_append (f : WorkerPC → Nat) (ws : List WorkerPC) (w : WorkerPC) :
    tally f (ws ++ [w]) = tally f ws + f w := by
  simp [tally]

theorem tally_set (f : WorkerPC → Nat) :
    ∀ (ws : List WorkerPC) (i : Nat) (w w' : WorkerPC), ws.get? i = some w →
      tally f (ws.set i w') + f w = tally f ws + f w'
  | [], _, _, _, h => by simp at h
  | x :: xs, 0, w, w', h => by
    simp only [List.get?_cons_zero, Option.some.injEq] at h
    subst h
    simp only [tally, List.set_cons_zero, List.map_cons, List.sum_cons]
    omega
  | x :: xs, i + 1, w, w', h => by
    simp only [List.get?_cons_succ] at h
    have ih := tally_set f xs i w w' h
    simp only [tally, List.set_cons_succ, List.map_cons, List.sum_cons] at ih ⊢
    omega

theorem tally_get_le (f : WorkerPC → Nat) :
    ∀ (ws : List WorkerPC) (i : Nat) (w : WorkerPC), ws.get? i = some w → f w ≤ tally f ws
  | [], _, _, h => by simp at h
  | x :: xs, 0, w, h => by
    simp only [List.get?_cons_zero, Option.some.injEq] at h
    subst h
    simp only [tally, List.map_cons, List.sum_cons]
    omega
  | x :: xs, i + 1, w, h => by
    simp only [List.get?_cons_succ] at h
    have ih := tally_get_le f xs i w h
    simp only [tally, List.map_cons, List.sum_cons] at ih ⊢
    omega

theorem tally_pos_exists (f : WorkerPC → Nat) :
    ∀ (ws : List WorkerPC), 0 < tally f ws → ∃ i w, ws.get? i = some w ∧ 0 < f w
  | [], h => by simp [tally] at h
  | x :: xs, h => by
    simp only [tally, List.map_cons, List.sum_cons] at h
    by_cases hx : 0 < f x
    · exact ⟨0, x, rfl, hx⟩
    · have hxs : 0 < tally f xs := by simp only [tally]; omega
      obtain ⟨i, w, hi, hw⟩ := tally_pos_exists f xs hxs
      exact ⟨i + 1, w, by simpa using hi, hw⟩

theorem tally_le_length (f : WorkerPC → Nat) (hf : ∀ w, f w ≤ 1) :
    ∀ (ws : List WorkerPC), tally f ws ≤ ws.length
  | [] => by simp [tally]
  | x :: xs => by
    have ih := tally_le_length f hf xs
    have hx := hf x
    simp only [tally, List.map_cons, List.sum_cons, List.length_cons] at ih ⊢
    omega

theorem verdicts_append (xs ys : List Report) : verdicts (xs ++ ys) = verdicts xs ++ verdicts ys := by
  simp [verdicts]

theorem verdicts_logCreating (err : Option String) (email : String) (out : List Report) :
    verdicts (logIfErr err (fun e => .errorCreating e email) out) = verdicts out := by
  cases err <;> simp [logIfErr, verdicts, Report.verdictOf]

theorem verdicts_logVerifying (err : Option String) (email : String) (out : List Report) :
    verdicts (logIfErr err (fun e => .errorVerifying e email) out) = verdicts out := by
  cases err <;> simp [logIfErr, verdicts, Report.verdictOf]

theorem runDeferred_pos (i : Nat) (after : WorkerPC) (s : State) (h : s.wg ≠ 0) :
    runDeferred i after s = { s with wg := s.wg - 1, workers := s.workers.set i after } := by
  simp [runDeferred, h]

/-! ## The invariant holds in every reachable state -/

theorem inv_init (cfg : Config) : Inv cfg initState := by
  refine ⟨?_, ?_, ?_, ?_, ?_, ?_, ?_, ?_⟩ <;> simp [initState, tally, unsent, verdicts, jobQCap]

theorem inv_step {env : Env} {cfg : Config} {s s' : State} (hinv : Inv cfg s)
    (hstep : Step env cfg s s') : Inv cfg s' := by
  obtain ⟨hsp, hps, hfd, hcl, hcap, hwg, hde, hac⟩ := hinv
  cases hstep with
  | spawn i hc hm hlt =>
    obtain ⟨h1, h2, h3, h4, h5⟩ := hsp i hm
    have hcf : s.closed = false := by
      cases hcs : s.closed
      · rfl
      · have := hcl.1 hcs
        simp [hm] at this
    refine ⟨?_, ?_, ?_, ?_, ?_, ?_, ?_, ?_⟩
    · intro j hj
      simp only [MainPC.spawn.injEq] at hj
      subst hj
      simp only [tally_append, List.length_append, List.length_singleton, WorkerPC.notRecv]
      refine ⟨by omega, by omega, h3, h4, by omega⟩
    · intro h
      exact absurd rfl (h (i + 1))
    · intro rest hr
      simp at hr
    · simp [hcf]
    · exact hcap
    · simp only [tally_append, WorkerPC.active]
      omega
    · intro hpos
      simp only [tally_append, WorkerPC.isDone] at hpos
      exact hde (by omega)
    · intro hp a
      simp only [tally_append, WorkerPC.isPanicking, WorkerPC.heldCount, WorkerPC.held] at hp ⊢
      have := hac (by omega) a
      simp only [hm, unsent] at this
      simp only [unsent, List.count_nil]
      omega
  | startFeed i hc hm hge =>
    obtain ⟨h1, h2, h3, h4, h5⟩ := hsp i hm
    have hcf : s.closed = false := by
      cases hcs : s.closed
      · rfl
      · have := hcl.1 hcs
        simp [hm] at this
    refine ⟨?_, ?_, ?_, ?_, ?_, ?_, ?_, ?_⟩
    · intro j hj
      simp at hj
    · intro _
      show s.workers.length = _
      omega
    · intro rest hr
      simp only [MainPC.feed.injEq] at hr
      subst hr
      exact List.suffix_refl _
    · simp [hcf]
    · exact hcap
    · exact hwg
    · exact hde
    · intro hp a
      have := hac hp a
      simp only [hm, unsent] at this
      simpa only [unsent] using this
  | sendClosed email rest hc hm hcl' => exact ⟨hsp, hps, hfd, hcl, hcap, hwg, hde, hac⟩
  | closeClosed hc hm hcl' => exact ⟨hsp, hps, hfd, hcl, hcap, hwg, hde, hac⟩
  | abort i hc hm hw => exact ⟨hsp, hps, hfd, hcl, hcap, hwg, hde, hac⟩
  | send email rest hc hm hcl' hlen =>
    have hns : ∀ i, s.main ≠ .spawn i := by
      intro i hi
      rw [hm] at hi
      exact absurd hi (by simp)
    refine ⟨?_, ?_, ?_, ?_, ?_, ?_, ?_, ?_⟩
    · intro j hj
      simp at hj
    · intro _
      exact hps hns
    · intro r hr
      simp only [MainPC.feed.injEq] at hr
      subst hr
      exact List.IsSuffix.trans (List.suffix_cons email rest) (hfd _ hm)
    · simp [hcl']
    · simp only [List.length_append, List.length_singleton]
      omega
    · exact hwg
    · intro hpos
      have := (hde hpos).1
      rw [hcl'] at this
      exact absurd this (by simp)
    · intro hp a
      have hacc := hac hp a
      simp only [hm, unsent, List.count_cons] at hacc
      simp only [unsent, List.count_append, List.count_cons, List.count_nil]
      omega
  | close hc hm hcl' =>
    have hns : ∀ i, s.main ≠ .spawn i := by
      intro i hi
      rw [hm] at hi
      exact absurd hi (by simp)
    refine ⟨?_, ?_, ?_, ?_, ?_, ?_, ?_, ?_⟩
    · intro j hj
      simp at hj
    · intro _
      exact hps hns
    · intro r hr
      simp at hr
    · simp
    · exact hcap
    · exact hwg
    · intro hpos
      have := (hde hpos).1
      rw [hcl'] at this
      exact absurd this (by simp)
    · intro hp a
      have hacc := hac hp a
      simp only [hm, unsent] at hacc
      simpa only [unsent] using hacc
  | waitDone hc hm hwg' =>
    have hns : ∀ i, s.main ≠ .spawn i := by
      intro i hi
      rw [hm] at hi
      exact absurd hi (by simp)
    refine ⟨?_, ?_, ?_, ?_, ?_, ?_, ?_, ?_⟩
    · intro j hj
      simp at hj
    · intro _
      exact hps hns
    · intro r hr
      simp at hr
    · have := hcl.2 (Or.inl hm)
      simp [this]
    · exact hcap
    · exact hwg
    · exact hde
    · intro hp a
      have hacc := hac hp a
      simp only [hm, unsent] at hacc
      simpa only [unsent] using hacc
  | recvItem i email q hc hm hw hq =>
    have hA := tally_set WorkerPC.active s.workers i _ (.newReq email) hw
    have hD := tally_set WorkerPC.isDone s.workers i _ (.newReq email) hw
    have hP := tally_set WorkerPC.isPanicking s.workers i _ (.newReq email) hw
    have hN := tally_get_le WorkerPC.notRecv s.workers i _ hw
    have hA1 := tally_get_le WorkerPC.active s.workers i _ hw
    simp only [WorkerPC.active, WorkerPC.isDone, WorkerPC.isPanicking, WorkerPC.notRecv] at hA hD hP hN hA1
    refine ⟨?_, ?_, ?_, ?_, ?_, ?_, ?_, ?_⟩
    · intro j hj
      obtain ⟨h1, h2, h3, h4, h5⟩ := hsp j hj
      rw [hq] at h3
      exact absurd h3 (by simp)
    · intro h
      simp only [List.length_set]
      exact hps h
    · exact hfd
    · exact hcl
    · have := hcap
      rw [hq] at this
      simp only [List.length_cons] at this
      show q.length ≤ jobQCap
      omega
    · dsimp only
      omega
    · intro hpos
      have hpos' : 0 < tally WorkerPC.isDone (s.workers.set i _) := hpos
      have := (hde (by omega)).2
      rw [hq] at this
      exact absurd this (by simp)
    · intro hp a
      have hp' : tally WorkerPC.isPanicking (s.workers.set i _) = 0 := hp
      have hH := tally_set (WorkerPC.heldCount a) s.workers i _ (.newReq email) hw
      simp only [WorkerPC.heldCount, WorkerPC.held, List.count_nil] at hH
      have hacc := hac (by omega) a
      rw [hq, List.count_cons] at hacc
      simp only [List.count_singleton] at hH
      dsimp only
      simp only [beq_iff_eq] at hacc hH
      omega
  | recvExit i hc hm hw hq hcl' =>
    have hA := tally_set WorkerPC.active s.workers i _ (.done) hw
    have hD := tally_set WorkerPC.isDone s.workers i _ (.done) hw
    have hP := tally_set WorkerPC.isPanicking s.workers i _ (.done) hw
    have hN := tally_get_le WorkerPC.notRecv s.workers i _ hw
    have hA1 := tally_get_le WorkerPC.active s.workers i _ hw
    simp only [WorkerPC.active, WorkerPC.isDone, WorkerPC.isPanicking, WorkerPC.notRecv] at hA hD hP hN hA1
    rw [runDeferred_pos i _ s (by omega)]
    refine ⟨?_, ?_, ?_, ?_, ?_, ?_, ?_, ?_⟩
    · intro j hj
      obtain ⟨h1, h2, h3, h4, h5⟩ := hsp j hj
      have := hcl.1 hcl'
      rw [hj] at this
      simp at this
    · intro h
      simp only [List.length_set]
      exact hps h
    · exact hfd
    · exact hcl
    · exact hcap
    · dsimp only
      omega
    · intro _
      exact ⟨hcl', hq⟩
    · intro hp a
      have hp' : tally WorkerPC.isPanicking (s.workers.set i _) = 0 := hp
      have hH := tally_set (WorkerPC.heldCount a) s.workers i _ (.done) hw
      simp only [WorkerPC.heldCount, WorkerPC.held, List.count_nil] at hH
      have hacc := hac (by omega) a
      dsimp only
      omega
  | newReq i email hc hm hw =>
    have hA := tally_set WorkerPC.active s.workers i _ (.addHeaders email (env.newRequest "GET" (GmailAPIBaseURL ++ email)).1) hw
    have hD := tally_set WorkerPC.isDone s.workers i _ (.addHeaders email (env.newRequest "GET" (GmailAPIBaseURL ++ email)).1) hw
    have hP := tally_set WorkerPC.isPanicking s.workers i _ (.addHeaders email (env.newRequest "GET" (GmailAPIBaseURL ++ email)).1) hw
    have hN := tally_get_le WorkerPC.notRecv s.workers i _ hw
    have hA1 := tally_get_le WorkerPC.active s.workers i _ hw
    simp only [WorkerPC.active, WorkerPC.isDone, WorkerPC.isPanicking, WorkerPC.notRecv] at hA hD hP hN hA1
    refine ⟨?_, ?_, ?_, ?_, ?_, ?_, ?_, ?_⟩
    · intro j hj
      obtain ⟨h1, h2, h3, h4, h5⟩ := hsp j hj
      omega
    · intro h
      simp only [List.length_set]
      exact hps h
    · exact hfd
    · exact hcl
    · exact hcap
    · dsimp only
      omega
    · intro hpos
      have hpos' : 0 < tally WorkerPC.isDone (s.workers.set i _) := hpos
      exact hde (by omega)
    · intro hp a
      have hp' : tally WorkerPC.isPanicking (s.workers.set i _) = 0 := hp
      have hH := tally_set (WorkerPC.heldCount a) s.workers i _ (.addHeaders email (env.newRequest "GET" (GmailAPIBaseURL ++ email)).1) hw
      simp only [WorkerPC.heldCount, WorkerPC.held, List.count_nil] at hH
      have hacc := hac (by omega) a
      dsimp only
      simp only [verdicts_logCreating]
      omega
  | addNil i email hc hm hw =>
    have hA := tally_set WorkerPC.active s.workers i _ (.panicking) hw
    have hD := tally_set WorkerPC.isDone s.workers i _ (.panicking) hw
    have hP := tally_set WorkerPC.isPanicking s.workers i _ (.panicking) hw
    have hN := tally_get_le WorkerPC.notRecv s.workers i _ hw
    have hA1 := tally_get_le WorkerPC.active s.workers i _ hw
    simp only [WorkerPC.active, WorkerPC.isDone, WorkerPC.isPanicking, WorkerPC.notRecv] at hA hD hP hN hA1
    rw [runDeferred_pos i _ s (by omega)]
    refine ⟨?_, ?_, ?_, ?_, ?_, ?_, ?_, ?_⟩
    · intro j hj
      obtain ⟨h1, h2, h3, h4, h5⟩ := hsp j hj
      omega
    · intro h
      simp only [List.length_set]
      exact hps h
    · exact hfd
    · exact hcl
    · exact hcap
    · dsimp only
      omega
    · intro hpos
      have hpos' : 0 < tally WorkerPC.isDone (s.workers.set i _) := hpos
      exact hde (by omega)
    · intro hp
      have hp' : tally WorkerPC.isPanicking (s.workers.set i _) = 0 := hp
      exact absurd hp' (by omega)
  | addOk i email rq hc hm hw =>
    have hA := tally_set WorkerPC.active s.workers i _ (.doReq email (addCommonHeaders rq)) hw
    have hD := tally_set WorkerPC.isDone s.workers i _ (.doReq email (addCommonHeaders rq)) hw
    have hP := tally_set WorkerPC.isPanicking s.workers i _ (.doReq email (addCommonHeaders rq)) hw
    have hN := tally_get_le WorkerPC.notRecv s.workers i _ hw
    have hA1 := tally_get_le WorkerPC.active s.workers i _ hw
    simp only [WorkerPC.active, WorkerPC.isDone, WorkerPC.isPanicking, WorkerPC.notRecv] at hA hD hP hN hA1
    refine ⟨?_, ?_, ?_, ?_, ?_, ?_, ?_, ?_⟩
    · intro j hj
      obtain ⟨h1, h2, h3, h4, h5⟩ := hsp j hj
      omega
    · intro h
      simp only [List.length_set]
      exact hps h
    · exact hfd
    · exact hcl
    · exact hcap
    · dsimp only
      omega
    · intro hpos
      have hpos' : 0 < tally WorkerPC.isDone (s.workers.set i _) := hpos
      exact hde (by omega)
    · intro hp a
      have hp' : tally WorkerPC.isPanicking (s.workers.set i _) = 0 := hp
      have hH := tally_set (WorkerPC.heldCount a) s.workers i _ (.doReq email (addCommonHeaders rq)) hw
      simp only [WorkerPC.heldCount, WorkerPC.held, List.count_nil] at hH
      have hacc := hac (by omega) a
      dsimp only
      omega
  | doReq i email req hc hm hw =>
    have hA := tally_set WorkerPC.active s.workers i _ (.classify email (env.clientDo req).1) hw
    have hD := tally_set WorkerPC.isDone s.workers i _ (.classify email (env.clientDo req).1) hw
    have hP := tally_set WorkerPC.isPanicking s.workers i _ (.classify email (env.clientDo req).1) hw
    have hN := tally_get_le WorkerPC.notRecv s.workers i _ hw
    have hA1 := tally_get_le WorkerPC.active s.workers i _ hw
    simp only [WorkerPC.active, WorkerPC.isDone, WorkerPC.isPanicking, WorkerPC.notRecv] at hA hD hP hN hA1
    refine ⟨?_, ?_, ?_, ?_, ?_, ?_, ?_, ?_⟩
    · intro j hj
      obtain ⟨h1, h2, h3, h4, h5⟩ := hsp j hj
      omega
    · intro h
      simp only [List.length_set]
      exact hps h
    · exact hfd
    · exact hcl
    · exact hcap
    · dsimp only
      omega
    · intro hpos
      have hpos' : 0 < tally WorkerPC.isDone (s.workers.set i _) := hpos
      exact hde (by omega)
    · intro hp a
      have hp' : tally WorkerPC.isPanicking (s.workers.set i _) = 0 := hp
      have hH := tally_set (WorkerPC.heldCount a) s.workers i _ (.classify email (env.clientDo req).1) hw
      simp only [WorkerPC.heldCount, WorkerPC.held, List.count_nil] at hH
      have hacc := hac (by omega) a
      dsimp only
      simp only [verdicts_logVerifying]
      omega
  | classifyNil i email hc hm hw =>
    have hA := tally_set WorkerPC.active s.workers i _ (.panicking) hw
    have hD := tally_set WorkerPC.isDone s.workers i _ (.panicking) hw
    have hP := tally_set WorkerPC.isPanicking s.workers i _ (.panicking) hw
    have hN := tally_get_le WorkerPC.notRecv s.workers i _ hw
    have hA1 := tally_get_le WorkerPC.active s.workers i _ hw
    simp only [WorkerPC.active, WorkerPC.isDone, WorkerPC.isPanicking, WorkerPC.notRecv] at hA hD hP hN hA1
    rw [runDeferred_pos i _ s (by omega)]
    refine ⟨?_, ?_, ?_, ?_, ?_, ?_, ?_, ?_⟩
    · intro j hj
      obtain ⟨h1, h2, h3, h4, h5⟩ := hsp j hj
      omega
    · intro h
      simp only [List.length_set]
      exact hps h
    · exact hfd
    · exact hcl
    · exact hcap
    · dsimp only
      omega
    · intro hpos
      have hpos' : 0 < tally WorkerPC.isDone (s.workers.set i _) := hpos
      exact hde (by omega)
    · intro hp
      have hp' : tally WorkerPC.isPanicking (s.workers.set i _) = 0 := hp
      exact absurd hp' (by omega)
  | classifyValid i email rp hc hm hw hck =>
    have hA := tally_set WorkerPC.active s.workers i _ (.recv) hw
    have hD := tally_set WorkerPC.isDone s.workers i _ (.recv) hw
    have hP := tally_set WorkerPC.isPanicking s.workers i _ (.recv) hw
    have hN := tally_get_le WorkerPC.notRecv s.workers i _ hw
    have hA1 := tally_get_le WorkerPC.active s.workers i _ hw
    simp only [WorkerPC.active, WorkerPC.isDone, WorkerPC.isPanicking, WorkerPC.notRecv] at hA hD hP hN hA1
    refine ⟨?_, ?_, ?_, ?_, ?_, ?_, ?_, ?_⟩
    · intro j hj
      obtain ⟨h1, h2, h3, h4, h5⟩ := hsp j hj
      omega
    · intro h
      simp only [List.length_set]
      exact hps h
    · exact hfd
    · exact hcl
    · exact hcap
    · dsimp only
      omega
    · intro hpos
      have hpos' : 0 < tally WorkerPC.isDone (s.workers.set i _) := hpos
      exact hde (by omega)
    · intro hp a
      have hp' : tally WorkerPC.isPanicking (s.workers.set i _) = 0 := hp
      have hH := tally_set (WorkerPC.heldCount a) s.workers i _ (.recv) hw
      simp only [WorkerPC.heldCount, WorkerPC.held, List.count_nil] at hH
      have hacc := hac (by omega) a
      dsimp only
      simp only [verdicts_append, List.count_append]
      simp only [verdicts, List.filterMap_cons, Report.verdictOf, List.filterMap_nil]
      simp only [verdicts] at hacc
      omega
  | classifyInvalid i email rp hc hm hw hck =>
    have hA := tally_set WorkerPC.active s.workers i _ (.recv) hw
    have hD := tally_set WorkerPC.isDone s.workers i _ (.recv) hw
    have hP := tally_set WorkerPC.isPanicking s.workers i _ (.recv) hw
    have hN := tally_get_le WorkerPC.notRecv s.workers i _ hw
    have hA1 := tally_get_le WorkerPC.active s.workers i _ hw
    simp only [WorkerPC.active, WorkerPC.isDone, WorkerPC.isPanicking, WorkerPC.notRecv] at hA hD hP hN hA1
    refine ⟨?_, ?_, ?_, ?_, ?_, ?_, ?_, ?_⟩
    · intro j hj
      obtain ⟨h1, h2, h3, h4, h5⟩ := hsp j hj
      omega
    · intro h
      simp only [List.length_set]
      exact hps h
    · exact hfd
    · exact hcl
    · exact hcap
    · dsimp only
      omega
    · intro hpos
      have hpos' : 0 < tally WorkerPC.isDone (s.workers.set i _) := hpos
      exact hde (by omega)
    · intro hp a
      have hp' : tally WorkerPC.isPanicking (s.workers.set i _) = 0 := hp
      have hH := tally_set (WorkerPC.heldCount a) s.workers i _ (.recv) hw
      simp only [WorkerPC.heldCount, WorkerPC.held, List.count_nil] at hH
      have hacc := hac (by omega) a
      dsimp only
      simp only [verdicts_append, List.count_append]
      simp only [verdicts, List.filterMap_cons, Report.verdictOf, List.filterMap_nil]
      simp only [verdicts] at hacc
      omega

theorem reachable_inv {env : Env} {cfg : Config} {s : State} (hs : Reachable env cfg s) :
    Inv cfg s :=
  reachable_induction (Inv cfg) (inv_init cfg) (fun _ _ _ hinv hstep => inv_step hinv hstep) hs

theorem runDeferred_main (i : Nat) (after : WorkerPC) (s : State) :
    (runDeferred i after s).main = s.main := by
  unfold runDeferred; split <;> rfl

theorem runDeferred_crashed (i : Nat) (after : WorkerPC) (s : State) :
    (runDeferred i after s).crashed = s.crashed := by
  unfold runDeferred; split <;> rfl

theorem runDeferred_jobQ (i : Nat) (after : WorkerPC) (s : State) :
    (runDeferred i after s).jobQ = s.jobQ := by
  unfold runDeferred; split <;> rfl

theorem runDeferred_closed (i : Nat) (after : WorkerPC) (s : State) :
    (runDeferred i after s).closed = s.closed := by
  unfold runDeferred; split <;> rfl

theorem runDeferred_out (i : Nat) (after : WorkerPC) (s : State) :
    (runDeferred i after s).out = s.out := by
  unfold runDeferred; split <;> rfl

/-- How the process can have exited: `main` returns only at counter zero, and
only a panicking worker aborts it (the two panics of `main`, a send on or a
close of a closed channel, never happen). -/
theorem reachable_exit {env : Env} {cfg : Config} {s : State} (hs : Reachable env cfg s) :
    (s.main = .returned → s.wg = 0) ∧
      (s.crashed = true → 0 < tally WorkerPC.isPanicking s.workers) := by
  refine reachable_induction
    (fun s => (s.main = .returned → s.wg = 0) ∧
      (s.crashed = true → 0 < tally WorkerPC.isPanicking s.workers)) ?_ ?_ hs
  · simp [initState]
  · intro s s' hr _ hstep
    have hinv := reachable_inv hr
    cases hstep with
    | spawn i hc hm hlt => simp [hc]
    | startFeed i hc hm hge => simp [hc]
    | sendClosed email rest hc hm hcl =>
      have := hinv.closedIff.1 hcl
      simp [hm] at this
    | send email rest hc hm hcl hlen => simp [hc]
    | closeClosed hc hm hcl =>
      have := hinv.closedIff.1 hcl
      simp [hm] at this
    | close hc hm hcl => simp [hc]
    | waitDone hc hm hwg => simp [hc, hwg]
    | recvItem i email q hc hm hw hq => simp [hc, hm]
    | recvExit i hc hm hw hq hcl => simp [hc, hm, runDeferred_main, runDeferred_crashed]
    | newReq i email hc hm hw => simp [hc, hm]
    | addNil i email hc hm hw => simp [hc, hm, runDeferred_main, runDeferred_crashed]
    | addOk i email rq hc hm hw => simp [hc, hm]
    | doReq i email req hc hm hw => simp [hc, hm]
    | classifyNil i email hc hm hw => simp [hc, hm, runDeferred_main, runDeferred_crashed]
    | classifyValid i email rp hc hm hw hck => simp [hc, hm]
    | classifyInvalid i email rp hc hm hw hck => simp [hc, hm]
    | abort i hc hm hw =>
      have := tally_get_le WorkerPC.isPanicking s.workers i _ hw
      simp only [WorkerPC.isPanicking] at this
      refine ⟨fun h => absurd h hm, fun _ => ?_⟩
      dsimp only
      omega

theorem workers_length_le {env : Env} {cfg : Config} {s : State} (hs : Reachable env cfg s) :
    s.workers.length ≤ cfg.noOfWorkers.toNat := by
  have hinv := reachable_inv hs
  cases hm : s.main with
  | spawn i =>
    obtain ⟨h1, h2, _⟩ := hinv.spawnPhase i hm
    omega
  | feed rest => exact le_of_eq (hinv.poolSize (by simp [hm]))
  | wait => exact le_of_eq (hinv.poolSize (by simp [hm]))
  | returned => exact le_of_eq (hinv.poolSize (by simp [hm]))

/-! ## Termination and absence of deadlock -/

theorem step_decreases {env : Env} {cfg : Config} {s s' : State} (hstep : Step env cfg s s') :
    stepsLeft cfg s' < stepsLeft cfg s := by
  cases hstep with
  | spawn i hc hm hlt =>
    simp only [stepsLeft, hm, mainWeight, hc, tally_append, WorkerPC.weight]
    have : i < cfg.noOfWorkers.toNat := by omega
    simp only [Bool.false_eq_true, if_false]
    omega
  | startFeed i hc hm hge =>
    simp only [stepsLeft, hm, mainWeight, hc]
    omega
  | sendClosed email rest hc hm hcl => simp [stepsLeft, hc]
  | send email rest hc hm hcl hlen =>
    simp only [stepsLeft, hm, mainWeight, hc, List.length_append, List.length_cons,
      List.length_nil]
    omega
  | closeClosed hc hm hcl => simp [stepsLeft, hc]
  | close hc hm hcl => simp [stepsLeft, hm, mainWeight, hc]
  | waitDone hc hm hwg => simp [stepsLeft, hm, mainWeight, hc]
  | recvItem i email q hc hm hw hq =>
    have hW := tally_set WorkerPC.weight s.workers i _ (.newReq email) hw
    simp only [WorkerPC.weight] at hW
    simp only [stepsLeft, hq, List.length_cons]
    omega
  | recvExit i hc hm hw hq hcl =>
    have hW := tally_set WorkerPC.weight s.workers i _ .done hw
    have hW' := tally_set WorkerPC.weight s.workers i _ .panicking hw
    simp only [WorkerPC.weight] at hW hW'
    unfold runDeferred
    split <;> simp only [stepsLeft] <;> omega
  | newReq i email hc hm hw =>
    have hW := tally_set WorkerPC.weight s.workers i _
      (.addHeaders email (env.newRequest "GET" (GmailAPIBaseURL ++ email)).1) hw
    simp only [WorkerPC.weight] at hW
    simp only [stepsLeft]
    omega
  | addNil i email hc hm hw =>
    have hW' := tally_set WorkerPC.weight s.workers i _ .panicking hw
    simp only [WorkerPC.weight] at hW'
    unfold runDeferred
    split <;> simp only [stepsLeft] <;> omega
  | addOk i email rq hc hm hw =>
    have hW := tally_set WorkerPC.weight s.workers i _ (.doReq email (addCommonHeaders rq)) hw
    simp only [WorkerPC.weight] at hW
    simp only [stepsLeft]
    omega
  | doReq i email req hc hm hw =>
    have hW := tally_set WorkerPC.weight s.workers i _ (.classify email (env.clientDo req).1) hw
    simp only [WorkerPC.weight] at hW
    simp only [stepsLeft]
    omega
  | classifyNil i email hc hm hw =>
    have hW' := tally_set WorkerPC.weight s.workers i _ .panicking hw
    simp only [WorkerPC.weight] at hW'
    unfold runDeferred
    split <;> simp only [stepsLeft] <;> omega
  | classifyValid i email rp hc hm hw hck =>
    have hW := tally_set WorkerPC.weight s.workers i _ .recv hw
    simp only [WorkerPC.weight] at hW
    simp only [stepsLeft]
    omega
  | classifyInvalid i email rp hc hm hw hck =>
    have hW := tally_set WorkerPC.weight s.workers i _ .recv hw
    simp only [WorkerPC.weight] at hW
    simp only [stepsLeft]
    omega
  | abort i hc hm hw => simp [stepsLeft, hc]

/-- Every schedule is at most `stepsLeft` long: the process cannot run for
ever. -/
theorem run_length_le {env : Env} {cfg : Config} :
    ∀ (sched : List Action) (s s' : State), run env cfg sched s = some s' →
      sched.length + stepsLeft cfg s' ≤ stepsLeft cfg s
  | [], s, s', h => by
    simp only [run, Option.some.injEq] at h
    subst h
    simp
  | a :: as, s, s', h => by
    simp only [run] at h
    cases hst : step env cfg a s with
    | none => simp [hst] at h
    | some s1 =>
      rw [hst] at h
      have h1 := step_decreases (step_sound hst)
      have h2 := run_length_le as s1 s' (by simpa using h)
      simp only [List.length_cons]
      omega

theorem step_main_alive (env : Env) (cfg : Config) (s : State) (hterm : ¬ Terminal s) :
    step env cfg .main s = stepMain cfg s := by
  have halive : ¬ (s.crashed = true ∨ s.main = .returned) := fun h => hterm (Or.symm h)
  simp only [step, halive, if_false]

theorem step_worker_alive (env : Env) (cfg : Config) (s : State) (i : Nat)
    (hterm : ¬ Terminal s) : step env cfg (.worker i) s = stepWorker env i s := by
  have halive : ¬ (s.crashed = true ∨ s.main = .returned) := fun h => hterm (Or.symm h)
  simp only [step, halive, if_false]

/-- A worker that has not left `verifyEmail` can take a step, unless it waits
at the empty open channel. -/
theorem worker_can_step (env : Env) (cfg : Config) (s : State) (i : Nat) (w : WorkerPC)
    (hterm : ¬ Terminal s) (hw : s.workers.get? i = some w) (hnd : w ≠ .done)
    (hrecv : w = .recv → s.jobQ ≠ [] ∨ s.closed = true) :
    ∃ s', step env cfg (.worker i) s = some s' := by
  rw [step_worker_alive env cfg s i hterm]
  simp only [stepWorker, hw]
  cases w with
  | recv =>
    cases hq : s.jobQ with
    | nil =>
      rcases hrecv rfl with h | h
      · exact absurd hq h
      · simp [h]
    | cons e q => simp
  | newReq e => simp
  | addHeaders e req => cases req <;> simp
  | doReq e req => simp
  | classify e resp =>
    cases resp with
    | none => simp
    | some rp => dsimp only; split <;> simp
  | done => exact absurd rfl hnd
  | panicking => simp

/-- With at least one worker, the process is never stuck before it has exited. -/
theorem no_deadlock {env : Env} {cfg : Config} {s : State} (hn : 1 ≤ cfg.noOfWorkers)
    (hs : Reachable env cfg s) (hterm : ¬ Terminal s) :
    ∃ a s', step env cfg a s = some s' := by
  have hinv := reachable_inv hs
  have hmain := step_main_alive env cfg s hterm
  cases hm : s.main with
  | spawn i =>
    refine ⟨.main, ?_⟩
    rw [hmain]
    simp only [stepMain, hm]
    split <;> simp
  | feed rest =>
    have hcl : s.closed = false := by
      cases hc : s.closed
      · rfl
      · have := hinv.closedIff.1 hc
        simp [hm] at this
    cases rest with
    | nil =>
      refine ⟨.main, ?_⟩
      rw [hmain]
      simp [stepMain, hm, hcl]
    | cons e rest =>
      by_cases hlen : s.jobQ.length < jobQCap
      · refine ⟨.main, ?_⟩
        rw [hmain]
        simp [stepMain, hm, hcl, hlen]
      · have hlenw : s.workers.length = cfg.noOfWorkers.toNat := hinv.poolSize (by simp [hm])
        have hpos : 0 < s.workers.length := by omega
        obtain ⟨w, hw⟩ : ∃ w, s.workers.get? 0 = some w := by
          cases hws : s.workers with
          | nil => simp [hws] at hpos
          | cons w ws => exact ⟨w, rfl⟩
        have hnd : w ≠ .done := by
          intro hd
          subst hd
          have := tally_get_le WorkerPC.isDone s.workers 0 _ hw
          simp only [WorkerPC.isDone] at this
          have := (hinv.doneEmpty (by omega)).1
          rw [hcl] at this
          exact absurd this (by simp)
        have hq : s.jobQ ≠ [] := by
          intro hq
          rw [hq] at hlen
          simp [jobQCap] at hlen
        obtain ⟨s', hs'⟩ := worker_can_step env cfg s 0 w hterm hw hnd (fun _ => Or.inl hq)
        exact ⟨.worker 0, s', hs'⟩
  | wait =>
    by_cases hwg : s.wg = 0
    · refine ⟨.main, ?_⟩
      rw [hmain]
      simp [stepMain, hm, hwg]
    · have hpos : 0 < tally WorkerPC.active s.workers := by
        have := hinv.wgCount
        omega
      obtain ⟨i, w, hw, hact⟩ := tally_pos_exists _ _ hpos
      have hnd : w ≠ .done := by
        intro hd
        subst hd
        simp [WorkerPC.active] at hact
      have hcl : s.closed = true := hinv.closedIff.2 (Or.inl hm)
      obtain ⟨s', hs'⟩ := worker_can_step env cfg s i w hterm hw hnd (fun _ => Or.inr hcl)
      exact ⟨.worker i, s', hs'⟩
  | returned => exact absurd (Or.inl hm) hterm

/-- With at least one worker, every reachable state can be run on to an exit of
the process (a return of `main` or an abort). -/
theorem exists_terminal {env : Env} {cfg : Config} (hn : 1 ≤ cfg.noOfWorkers) :
    ∀ (k : Nat) (s : State), stepsLeft cfg s ≤ k → Reachable env cfg s →
      ∃ sched s', run env cfg sched s = some s' ∧ Terminal s'
  | 0, s, hk, hs => by
    by_cases hterm : Terminal s
    · exact ⟨[], s, rfl, hterm⟩
    · obtain ⟨a, s1, hst⟩ := no_deadlock hn hs hterm
      have := step_decreases (step_sound hst)
      omega
  | k + 1, s, hk, hs => by
    by_cases hterm : Terminal s
    · exact ⟨[], s, rfl, hterm⟩
    · obtain ⟨a, s1, hst⟩ := no_deadlock hn hs hterm
      have hdec := step_decreases (step_sound hst)
      obtain ⟨sched, s', hrun, ht⟩ :=
        exists_terminal hn k s1 (by omega) (reachable_step a hs hst)
      exact ⟨a :: sched, s', by simp [run, hst, hrun], ht⟩

/-! ## A single worker runs the loop over the input in order -/

theorem andThen_prepend (pre : List Report) (c x : List Report × Bool) :
    andThen (pre ++ c.1, c.2) x = (pre ++ (andThen c x).1, (andThen c x).2) := by
  obtain ⟨c1, c2⟩ := c
  cases c2 <;> simp [andThen]

theorem andThen_nil (x : List Report × Bool) : andThen ([], false) x = x := by
  simp [andThen]

theorem andThen_panic (x : List Report × Bool) : andThen ([], true) x = ([], true) := by
  simp [andThen]

theorem logIfErr_eq_append (err : Option String) (line : String → Report) (out : List Report) :
    logIfErr err line out = out ++ logIfErr err line [] := by
  cases err <;> simp [logIfErr]

theorem single_worker {ws : List WorkerPC} {i : Nat} {w : WorkerPC} (hlen : ws.length ≤ 1)
    (hw : ws.get? i = some w) : ws = [w] ∧ i = 0 := by
  match ws, i, hlen, hw with
  | [x], 0, _, hw =>
    simp only [List.get?_cons_zero, Option.some.injEq] at hw
    subst hw
    exact ⟨rfl, rfl⟩
  | [x], i + 1, _, hw => simp at hw
  | [], _, _, hw => simp at hw
  | _ :: _ :: _, _, hlen, _ => simp at hlen

/-- With one worker, the lines written so far followed by the lines still to
come are the lines of `verifyEmailLoop` on the input. -/
theorem seq_inv {env : Env} {cfg : Config} {s : State} (hn : cfg.noOfWorkers = 1)
    (hs : Reachable env cfg s) :
    verifyEmailLoop env cfg.emails = (s.out ++ (seqRest env cfg s).1, (seqRest env cfg s).2) := by
  refine reachable_induction
    (fun s => verifyEmailLoop env cfg.emails =
      (s.out ++ (seqRest env cfg s).1, (seqRest env cfg s).2)) ?_ ?_ hs
  · simp [initState, seqRest, unsent, WorkerPC.remaining, andThen_nil]
  · intro s s' hr hI hstep
    have hinv := reachable_inv hr
    have hlen : s.workers.length ≤ 1 := by
      have := workers_length_le hr
      omega
    have hwg := hinv.wgCount
    cases hstep with
    | spawn i hc hm hlt =>
      obtain ⟨h1, h2, _⟩ := hinv.spawnPhase i hm
      have hws : s.workers = [] := by
        apply List.eq_nil_of_length_eq_zero
        omega
      rw [hI]
      simp [seqRest, hws, hm, unsent]
    | startFeed i hc hm hge =>
      rw [hI]
      simp [seqRest, hm, unsent]
    | sendClosed email rest hc hm hcl => exact hI
    | send email rest hc hm hcl hlen' =>
      rw [hI]
      simp [seqRest, hm, unsent]
    | closeClosed hc hm hcl => exact hI
    | close hc hm hcl =>
      rw [hI]
      simp [seqRest, hm, unsent]
    | waitDone hc hm hwg' =>
      rw [hI]
      simp [seqRest, hm, unsent]
    | recvItem i email q hc hm hw hq =>
      obtain ⟨hws, hi⟩ := single_worker hlen hw
      subst hi
      rw [hI]
      simp [seqRest, hws, hq, WorkerPC.remaining, andThen_nil, verifyEmailLoop]
    | recvExit i hc hm hw hq hcl =>
      obtain ⟨hws, hi⟩ := single_worker hlen hw
      subst hi
      rw [hws] at hwg
      rw [runDeferred_pos 0 _ s (by simp [hwg, tally, WorkerPC.active])]
      rw [hI]
      simp [seqRest, hws, WorkerPC.remaining]
    | newReq i email hc hm hw =>
      obtain ⟨hws, hi⟩ := single_worker hlen hw
      subst hi
      rw [hI]
      simp only [seqRest, hws, List.set_cons_zero, List.headD_cons, WorkerPC.remaining, verifyOne,
        andThen_prepend]
      rw [logIfErr_eq_append _ _ s.out]
      simp
    | addNil i email hc hm hw =>
      obtain ⟨hws, hi⟩ := single_worker hlen hw
      subst hi
      rw [hws] at hwg
      rw [runDeferred_pos 0 _ s (by simp [hwg, tally, WorkerPC.active])]
      rw [hI]
      simp [seqRest, hws, WorkerPC.remaining, addHeadersOut, andThen_panic]
    | addOk i email rq hc hm hw =>
      obtain ⟨hws, hi⟩ := single_worker hlen hw
      subst hi
      rw [hI]
      simp [seqRest, hws, WorkerPC.remaining, addHeadersOut]
    | doReq i email req hc hm hw =>
      obtain ⟨hws, hi⟩ := single_worker hlen hw
      subst hi
      rw [hI]
      simp only [seqRest, hws, List.set_cons_zero, List.headD_cons, WorkerPC.remaining, doReqOut,
        andThen_prepend]
      rw [logIfErr_eq_append _ _ s.out]
      simp
    | classifyNil i email hc hm hw =>
      obtain ⟨hws, hi⟩ := single_worker hlen hw
      subst hi
      rw [hws] at hwg
      rw [runDeferred_pos 0 _ s (by simp [hwg, tally, WorkerPC.active])]
      rw [hI]
      simp [seqRest, hws, WorkerPC.remaining, classifyOut, andThen_panic]
    | classifyValid i email rp hc hm hw hck =>
      obtain ⟨hws, hi⟩ := single_worker hlen hw
      subst hi
      rw [hI]
      simp [seqRest, hws, WorkerPC.remaining, classifyOut, hck, andThen]
    | classifyInvalid i email rp hc hm hw hck =>
      obtain ⟨hws, hi⟩ := single_worker hlen hw
      subst hi
      rw [hI]
      simp [seqRest, hws, WorkerPC.remaining, classifyOut, hck, andThen]
    | abort i hc hm hw => exact hI

/-- With one worker, nothing is still to come once the process has exited, and
an abort happens only where `verifyEmailLoop` panics. -/
theorem seq_terminal {env : Env} {cfg : Config} {s : State} (hn : cfg.noOfWorkers = 1)
    (hs : Reachable env cfg s) (hterm : Terminal s) :
    (seqRest env cfg s).1 = [] ∧ (s.crashed = true → (seqRest env cfg s).2 = true) := by
  have hinv := reachable_inv hs
  have hexit := reachable_exit hs
  have hlen : s.workers.length ≤ 1 := by
    have := workers_length_le hs
    omega
  have hpanic : 0 < tally WorkerPC.isPanicking s.workers → seqRest env cfg s = ([], true) := by
    intro hp
    obtain ⟨i, w, hw, hpw⟩ := tally_pos_exists _ _ hp
    obtain ⟨hws, _⟩ := single_worker hlen hw
    cases w <;> simp [WorkerPC.isPanicking] at hpw
    simp [seqRest, hws, WorkerPC.remaining, andThen_panic]
  rcases hterm with hret | hcr
  · by_cases hp : 0 < tally WorkerPC.isPanicking s.workers
    · simp [hpanic hp]
    · have hwg0 := hexit.1 hret
      have hact : tally WorkerPC.active s.workers = 0 := by
        have := hinv.wgCount
        omega
      have hlen1 : s.workers.length = 1 := by
        have := hinv.poolSize (by simp [hret])
        omega
      obtain ⟨w, hws⟩ : ∃ w, s.workers = [w] := by
        match hw : s.workers, hlen1 with
        | [w], _ => exact ⟨w, rfl⟩
      rw [hws] at hact hp
      have hwd : w = .done := by
        cases w <;> simp [tally, WorkerPC.active, WorkerPC.isPanicking] at hact hp ⊢
      subst hwd
      have hq := (hinv.doneEmpty (by simp [hws, tally, WorkerPC.isDone])).2
      have hcrf : s.crashed = false := by
        cases hcs : s.crashed
        · rfl
        · exact absurd (hexit.2 hcs) (by simpa [hws] using hp)
      simp [seqRest, hws, hq, hret, unsent, WorkerPC.remaining, andThen_nil, verifyEmailLoop, hcrf]
  · simp [hpanic (hexit.2 hcr)]

/-! ## Runs without workers -/

theorem drop_cons_take {α : Type} :
    ∀ (l : List α) (k : Nat) (e : α) (rest : List α), l.drop k = e :: rest →
      l.drop (k + 1) = rest ∧ l.take (k + 1) = l.take k ++ [e] ∧ k < l.length
  | [], k, e, rest, h => by simp at h
  | x :: xs, 0, e, rest, h => by
    simp only [List.drop_zero, List.cons.injEq] at h
    obtain ⟨rfl, rfl⟩ := h
    simp
  | x :: xs, k + 1, e, rest, h => by
    simp only [List.drop_succ_cons] at h
    obtain ⟨h1, h2, h3⟩ := drop_cons_take xs k e rest h
    refine ⟨by simpa using h1, ?_, by simpa using h3⟩
    rw [List.take_succ_cons, h2]
    simp

theorem drop_lt_cons {α : Type} :
    ∀ (l : List α) (k : Nat), k < l.length → ∃ e rest, l.drop k = e :: rest
  | [], k, h => by simp at h
  | x :: xs, 0, _ => ⟨x, xs, rfl⟩
  | x :: xs, k + 1, h => by
    simpa using drop_lt_cons xs k (by simpa using h)

theorem zero_inv {env : Env} {cfg : Config} {s : State} (hn : cfg.noOfWorkers ≤ 0)
    (hs : Reachable env cfg s) : ZeroInv cfg s := by
  refine reachable_induction (ZeroInv cfg) (Or.inl rfl) ?_ hs
  intro s s' hr hz hstep
  have hnow : ∀ i w, s.workers.get? i = some w → False := by
    intro i w hw
    have hlen := workers_length_le hr
    have : s.workers = [] := List.eq_nil_of_length_eq_zero (by omega)
    rw [this] at hw
    simp at hw
  cases hstep with
  | spawn i hc hm hlt => omega
  | startFeed i hc hm hge =>
    rcases hz with h | ⟨k, _, _, h⟩ | ⟨_, h | h⟩
    · subst h
      exact Or.inr (Or.inl ⟨0, by omega, by omega, by simp [zeroFeed, initState]⟩)
    · subst h; simp [zeroFeed] at hm
    · subst h; simp [zeroWait] at hm
    · subst h; simp [zeroReturned] at hm
  | sendClosed email rest hc hm hcl =>
    rcases hz with h | ⟨k, _, _, h⟩ | ⟨_, h | h⟩
    · subst h; simp [initState] at hm
    · subst h; simp [zeroFeed] at hcl
    · subst h; simp [zeroWait] at hm
    · subst h; simp [zeroReturned] at hm
  | send email rest hc hm hcl hlen =>
    rcases hz with h | ⟨k, hk, hkl, h⟩ | ⟨_, h | h⟩
    · subst h; simp [initState] at hm
    · subst h
      simp only [zeroFeed, MainPC.feed.injEq] at hm
      obtain ⟨h1, h2, h3⟩ := drop_cons_take _ _ _ _ hm
      simp only [zeroFeed, List.length_take, jobQCap] at hlen
      refine Or.inr (Or.inl ⟨k + 1, by omega, by omega, ?_⟩)
      simp [zeroFeed, h1, h2]
    · subst h; simp [zeroWait] at hm
    · subst h; simp [zeroReturned] at hm
  | closeClosed hc hm hcl =>
    rcases hz with h | ⟨k, _, _, h⟩ | ⟨_, h | h⟩
    · subst h; simp [initState] at hm
    · subst h; simp [zeroFeed] at hcl
    · subst h; simp [zeroWait] at hm
    · subst h; simp [zeroReturned] at hm
  | close hc hm hcl =>
    rcases hz with h | ⟨k, hk, hkl, h⟩ | ⟨_, h | h⟩
    · subst h; simp [initState] at hm
    · subst h
      simp only [zeroFeed, MainPC.feed.injEq, List.drop_eq_nil_iff] at hm
      have hke : k = cfg.emails.length := by omega
      refine Or.inr (Or.inr ⟨by omega, Or.inl ?_⟩)
      simp [zeroFeed, zeroWait, hke]
    · subst h; simp [zeroWait] at hm
    · subst h; simp [zeroReturned] at hm
  | waitDone hc hm hwg =>
    rcases hz with h | ⟨k, hk, hkl, h⟩ | ⟨hl, h | h⟩
    · subst h; simp [initState] at hm
    · subst h; simp [zeroFeed] at hm
    · subst h
      exact Or.inr (Or.inr ⟨hl, Or.inr (by simp [zeroWait, zeroReturned])⟩)
    · subst h; simp [zeroReturned] at hm
  | recvItem i email q hc hm hw hq => exact absurd (hnow i _ hw) id
  | recvExit i hc hm hw hq hcl => exact absurd (hnow i _ hw) id
  | newReq i email hc hm hw => exact absurd (hnow i _ hw) id
  | addNil i email hc hm hw => exact absurd (hnow i _ hw) id
  | addOk i email rq hc hm hw => exact absurd (hnow i _ hw) id
  | doReq i email req hc hm hw => exact absurd (hnow i _ hw) id
  | classifyNil i email hc hm hw => exact absurd (hnow i _ hw) id
  | classifyValid i email rp hc hm hw hck => exact absurd (hnow i _ hw) id
  | classifyInvalid i email rp hc hm hw hck => exact absurd (hnow i _ hw) id
  | abort i hc hm hw => exact absurd (hnow i _ hw) id

theorem step_main_init (env : Env) (cfg : Config) (hn : cfg.noOfWorkers ≤ 0) :
    step env cfg .main initState = some (zeroFeed cfg 0) := by
  have : ¬ (0 : Int) < cfg.noOfWorkers := by omega
  simp [step, stepMain, initState, zeroFeed, this]

theorem step_main_zeroFeed (env : Env) (cfg : Config) (k : Nat) (hk : k < 10)
    (hkl : k < cfg.emails.length) :
    step env cfg .main (zeroFeed cfg k) = some (zeroFeed cfg (k + 1)) := by
  obtain ⟨e, rest, hd⟩ := drop_lt_cons cfg.emails k hkl
  obtain ⟨h1, h2, _⟩ := drop_cons_take _ _ _ _ hd
  have hlen : min k cfg.emails.length < jobQCap := by
    simp only [jobQCap]
    omega
  simp [step, stepMain, zeroFeed, hd, h1, h2, hlen]

theorem step_main_zeroFeed_close (env : Env) (cfg : Config) :
    step env cfg .main (zeroFeed cfg cfg.emails.length) = some (zeroWait cfg) := by
  simp [step, stepMain, zeroFeed, zeroWait]

theorem step_main_zeroWait (env : Env) (cfg : Config) :
    step env cfg .main (zeroWait cfg) = some (zeroReturned cfg) := by
  simp [step, stepMain, zeroWait, zeroReturned]

theorem run_replicate_succ (env : Env) (cfg : Config) (k : Nat) (s s1 s2 : State)
    (h1 : run env cfg (List.replicate k .main) s = some s1)
    (h2 : step env cfg .main s1 = some s2) :
    run env cfg (List.replicate (k + 1) .main) s = some s2 := by
  rw [List.replicate_succ', run_append, h1]
  simp [run, h2]

theorem run_zeroFeed (env : Env) (cfg : Config) (hn : cfg.noOfWorkers ≤ 0) :
    ∀ k, k ≤ 10 → k ≤ cfg.emails.length →
      run env cfg (List.replicate (k + 1) .main) initState = some (zeroFeed cfg k)
  | 0, _, _ => by simp [run, step_main_init env cfg hn]
  | k + 1, hk, hkl =>
    run_replicate_succ env cfg (k + 1) _ _ _ (run_zeroFeed env cfg hn k (by omega) (by omega))
      (step_main_zeroFeed env cfg k (by omega) (by omega))

theorem stuck_zeroFeed_full (env : Env) (cfg : Config) (hl : 10 < cfg.emails.length) :
    Stuck env cfg (zeroFeed cfg 10) := by
  obtain ⟨e, rest, hd⟩ := drop_lt_cons cfg.emails 10 hl
  have hlen : ¬ min 10 cfg.emails.length < jobQCap := by
    simp only [jobQCap]
    omega
  intro a
  cases a with
  | main => simp [step, stepMain, zeroFeed, hd, hlen]
  | worker i => simp [step, stepWorker, zeroFeed]

/-! ## Classification and the channel protocol -/

theorem string_length_pos_iff (v : String) : 0 < v.length ↔ v ≠ "" := by
  rw [Ne, String.ext_iff, String.length]
  cases v.data <;> simp

theorem get_length_pos_iff (h : Header) (key : String) :
    0 < (h.Get key).length ↔ h.firstValueNonEmpty key = true := by
  unfold Header.Get Header.firstValueNonEmpty
  split
  · simp [string_length_pos_iff]
  · simp

theorem carries_false_first (h : Header) (key : String) (hc : h.carries key = false) :
    h.firstValueNonEmpty key = false := by
  unfold Header.carries at hc
  unfold Header.firstValueNonEmpty
  split at hc
  · simp at hc
  · rfl

theorem tally_partition :
    ∀ (ws : List WorkerPC), tally WorkerPC.active ws + tally WorkerPC.isDone ws +
      tally WorkerPC.isPanicking ws = ws.length
  | [] => by simp [tally]
  | w :: ws => by
    have ih := tally_partition ws
    simp only [tally, List.map_cons, List.sum_cons, List.length_cons] at ih ⊢
    cases w <;> simp only [WorkerPC.active, WorkerPC.isDone, WorkerPC.isPanicking] <;> omega

theorem tally_mono (f g : WorkerPC → Nat) (hfg : ∀ w, f w ≤ g w) :
    ∀ (ws : List WorkerPC), tally f ws ≤ tally g ws
  | [] => by simp [tally]
  | w :: ws => by
    have ih := tally_mono f g hfg ws
    have := hfg w
    simp only [tally, List.map_cons, List.sum_cons] at ih ⊢
    omega

/-- When `main` has returned and no worker has panicked, every worker has
returned; with at least one worker, the buffer is then empty. -/
theorem returned_all_done {env : Env} {cfg : Config} {s : State} (hs : Reachable env cfg s)
    (hret : s.main = .returned) (hp : tally WorkerPC.isPanicking s.workers = 0) :
    tally WorkerPC.active s.workers = 0 ∧
      tally WorkerPC.isDone s.workers = cfg.noOfWorkers.toNat ∧
      (1 ≤ cfg.noOfWorkers → s.jobQ = []) := by
  have hinv := reachable_inv hs
  have hwg0 := (reachable_exit hs).1 hret
  have hact : tally WorkerPC.active s.workers = 0 := by
    have := hinv.wgCount
    omega
  have hlen : s.workers.length = cfg.noOfWorkers.toNat := hinv.poolSize (by simp [hret])
  have hpart := tally_partition s.workers
  refine ⟨hact, by omega, fun hn => (hinv.doneEmpty (by omega)).2⟩

/-- What one step does to the channel: a closed channel stays closed and gets
no new element; only the close statement of `main`, reached after the last
send, closes it, and it keeps the buffer; `main` never panics. -/
theorem closed_step_facts {env : Env} {cfg : Config} {a : Action} {s s' : State}
    (hinv : Inv cfg s) (h : step env cfg a s = some s') :
    (s.closed = true → s'.closed = true ∧ (s'.jobQ = s.jobQ ∨ ∃ e, s.jobQ = e :: s'.jobQ)) ∧
      (s.closed = false → s'.closed = true →
        a = .main ∧ s.main = .feed [] ∧ s'.jobQ = s.jobQ) ∧
      (a = .main → s'.crashed = false) := by
  have hcl := hinv.closedIff
  unfold step at h
  split at h
  · exact absurd h (by simp)
  · rename_i halive
    have hc : s.crashed = false := by
      cases hcr : s.crashed
      · rfl
      · exact absurd (Or.inl hcr) halive
    cases a with
    | main =>
      simp only [stepMain] at h
      split at h
      · rename_i i hmi
        have hcf : s.closed = false := by
          cases hcs : s.closed
          · rfl
          · have := hcl.1 hcs
            simp [hmi] at this
        split at h <;> cases h <;> simp [hcf, hc]
      · rename_i email rest hmi
        have hcf : s.closed = false := by
          cases hcs : s.closed
          · rfl
          · have := hcl.1 hcs
            simp [hmi] at this
        simp only [hcf, Bool.false_eq_true, if_false] at h
        split at h
        · cases h; simp [hcf, hc]
        · exact absurd h (by simp)
      · rename_i hmi
        have hcf : s.closed = false := by
          cases hcs : s.closed
          · rfl
          · have := hcl.1 hcs
            simp [hmi] at this
        simp only [hcf, Bool.false_eq_true, if_false] at h
        cases h
        simp [hcf, hc, hmi]
      · rename_i hmi
        have hct : s.closed = true := hcl.2 (Or.inl hmi)
        split at h
        · cases h; simp [hct, hc]
        · exact absurd h (by simp)
      · exact absurd h (by simp)
    | worker i =>
      have key : s'.closed = s.closed ∧ (s'.jobQ = s.jobQ ∨ ∃ e, s.jobQ = e :: s'.jobQ) := by
        have hst := step_sound (show step env cfg (.worker i) s = some s' by
          unfold step; rw [if_neg halive]; exact h)
        simp only [stepWorker] at h
        split at h
        · exact absurd h (by simp)
        · split at h
          · rename_i email q hq
            cases h
            exact ⟨rfl, Or.inr ⟨email, hq⟩⟩
          · split at h
            · cases h
              exact ⟨runDeferred_closed _ _ _, Or.inl (runDeferred_jobQ _ _ _)⟩
            · exact absurd h (by simp)
        · cases h; exact ⟨rfl, Or.inl rfl⟩
        · split at h <;> cases h
          · exact ⟨runDeferred_closed _ _ _, Or.inl (runDeferred_jobQ _ _ _)⟩
          · exact ⟨rfl, Or.inl rfl⟩
        · cases h; exact ⟨rfl, Or.inl rfl⟩
        · split at h
          · cases h
            exact ⟨runDeferred_closed _ _ _, Or.inl (runDeferred_jobQ _ _ _)⟩
          · split at h <;> cases h <;> exact ⟨rfl, Or.inl rfl⟩
        · exact absurd h (by simp)
        · cases h; exact ⟨rfl, Or.inl rfl⟩
      refine ⟨fun hct => ⟨by rw [key.1, hct], key.2⟩, fun hcf hct => ?_, fun ha => by simp at ha⟩
      rw [key.1, hcf] at hct
      exact absurd hct (by simp)

/-! ## Data invariant and failure-free environments -/

theorem mem_logIfErr {r : Report} {err : Option String} {line : String → Report}
    {out : List Report} (h : r ∈ logIfErr err line out) :
    r ∈ out ∨ ∃ e, err = some e ∧ r = line e := by
  cases err with
  | none => exact Or.inl h
  | some e =>
    simp only [logIfErr, List.mem_append, List.mem_singleton] at h
    rcases h with h | h
    · exact Or.inl h
    · exact Or.inr ⟨e, rfl, h⟩

theorem mem_runDeferred {i : Nat} {after w : WorkerPC} {s : State}
    (h : w ∈ (runDeferred i after s).workers) : w ∈ s.workers ∨ w = after ∨ w = .panicking := by
  unfold runDeferred at h
  split at h
  · rcases List.mem_or_eq_of_mem_set h with h | h
    · exact Or.inl h
    · exact Or.inr (Or.inr h)
  · rcases List.mem_or_eq_of_mem_set h with h | h
    · exact Or.inl h
    · exact Or.inr (Or.inl h)

theorem local_inv {env : Env} {cfg : Config} {s : State} (hs : Reachable env cfg s) :
    LocalInv env cfg s := by
  refine reachable_induction (LocalInv env cfg) ?_ ?_ hs
  · exact ⟨by simp [initState], by simp [initState], by simp [initState]⟩
  · intro s s' hr hL hstep
    have hinv := reachable_inv hr
    obtain ⟨hq, hws, ho⟩ := hL
    have hset : ∀ (i : Nat) (new : WorkerPC), WorkerOK env cfg new →
        ∀ w ∈ s.workers.set i new, WorkerOK env cfg w := by
      intro i new hnew w hw
      rcases List.mem_or_eq_of_mem_set hw with h | h
      · exact hws w h
      · exact h ▸ hnew
    have hdef : ∀ (i : Nat) (after : WorkerPC), WorkerOK env cfg after →
        ∀ w ∈ (runDeferred i after s).workers, WorkerOK env cfg w := by
      intro i after hafter w hw
      rcases mem_runDeferred hw with h | h | h
      · exact hws w h
      · exact h ▸ hafter
      · exact h ▸ trivial
    cases hstep with
    | spawn i hc hm hlt =>
      refine ⟨hq, ?_, ho⟩
      intro w hw
      simp only [List.mem_append, List.mem_singleton] at hw
      rcases hw with h | h
      · exact hws w h
      · exact h ▸ trivial
    | startFeed i hc hm hge => exact ⟨hq, hws, ho⟩
    | sendClosed email rest hc hm hcl => exact ⟨hq, hws, ho⟩
    | send email rest hc hm hcl hlen =>
      refine ⟨?_, hws, ho⟩
      intro e he
      simp only [List.mem_append, List.mem_singleton] at he
      rcases he with h | h
      · exact hq e h
      · exact h ▸ (hinv.feedPhase _ hm).mem (List.mem_cons_self _ _)
    | closeClosed hc hm hcl => exact ⟨hq, hws, ho⟩
    | close hc hm hcl => exact ⟨hq, hws, ho⟩
    | waitDone hc hm hwg => exact ⟨hq, hws, ho⟩
    | recvItem i email q hc hm hw hq' =>
      have hmem : email ∈ cfg.emails := hq email (by rw [hq']; exact List.mem_cons_self _ _)
      refine ⟨?_, hset i _ hmem, ho⟩
      intro e he
      exact hq e (by rw [hq']; exact List.mem_cons_of_mem _ he)
    | recvExit i hc hm hw hq' hcl =>
      refine ⟨?_, hdef i _ trivial, ?_⟩
      · rw [runDeferred_jobQ]; exact hq
      · rw [runDeferred_out]; exact ho
    | newReq i email hc hm hw =>
      have hold : email ∈ cfg.emails := hws _ (List.get?_mem hw)
      refine ⟨hq, hset i _ ⟨hold, rfl⟩, ?_⟩
      intro r hr'
      rcases mem_logIfErr hr' with h | ⟨e, he, h⟩
      · exact ho r h
      · subst h
        exact ⟨hold, he⟩
    | addNil i email hc hm hw =>
      refine ⟨?_, hdef i _ trivial, ?_⟩
      · rw [runDeferred_jobQ]; exact hq
      · rw [runDeferred_out]; exact ho
    | addOk i email rq hc hm hw =>
      obtain ⟨hold, hreq⟩ : WorkerOK env cfg (.addHeaders email (some rq)) :=
        hws _ (List.get?_mem hw)
      refine ⟨hq, hset i _ ⟨hold, ?_⟩, ho⟩
      simp [expectedReq, ← hreq]
    | doReq i email req hc hm hw =>
      obtain ⟨hold, hreq⟩ : WorkerOK env cfg (.doReq email req) := hws _ (List.get?_mem hw)
      refine ⟨hq, hset i _ ⟨hold, req, hreq, rfl⟩, ?_⟩
      intro r hr'
      rcases mem_logIfErr hr' with h | ⟨e, he, h⟩
      · exact ho r h
      · subst h
        exact ⟨hold, req, hreq, he⟩
    | classifyNil i email hc hm hw =>
      refine ⟨?_, hdef i _ trivial, ?_⟩
      · rw [runDeferred_jobQ]; exact hq
      · rw [runDeferred_out]; exact ho
    | classifyValid i email rp hc hm hw hck =>
      obtain ⟨hold, rq, hreq, hresp⟩ : WorkerOK env cfg (.classify email (some rp)) :=
        hws _ (List.get?_mem hw)
      refine ⟨hq, hset i _ trivial, ?_⟩
      intro r hr'
      simp only [List.mem_append, List.mem_singleton] at hr'
      rcases hr' with h | h
      · exact ho r h
      · subst h
        exact ⟨hold, rp, by simp [expectedResp, hreq, ← hresp], hck⟩
    | classifyInvalid i email rp hc hm hw hck =>
      obtain ⟨hold, rq, hreq, hresp⟩ : WorkerOK env cfg (.classify email (some rp)) :=
        hws _ (List.get?_mem hw)
      refine ⟨hq, hset i _ trivial, ?_⟩
      intro r hr'
      simp only [List.mem_append, List.mem_singleton] at hr'
      rcases hr' with h | h
      · exact ho r h
      · subst h
        exact ⟨hold, rp, by simp [expectedResp, hreq, ← hresp], hck⟩
    | abort i hc hm hw => exact ⟨hq, hws, ho⟩

theorem oracle_expected {env : Env} {emails S : List String} {sets : Header → Bool}
    (h : OracleFor env emails S sets) {e : String} (he : e ∈ emails) :
    ∃ rq rp, env.newRequest "GET" (GmailAPIBaseURL ++ e) = (some rq, none) ∧
      expectedReq env e = some (addCommonHeaders rq) ∧
      env.clientDo (addCommonHeaders rq) = (some rp, none) ∧
      expectedResp env e = some rp ∧ (sets rp.header = true ↔ e ∈ S) := by
  obtain ⟨rq, rp, h1, h2, h3⟩ := h e he
  exact ⟨rq, rp, h1, by simp [expectedReq, h1], h2, by simp [expectedResp, expectedReq, h1, h2],
    h3⟩

/-- With an oracle that never fails on the input addresses, no worker panics,
the process is never aborted and no error line is written. -/
theorem no_failure {env : Env} {cfg : Config} {S : List String} {sets : Header → Bool}
    {s : State} (horacle : OracleFor env cfg.emails S sets) (hs : Reachable env cfg s) :
    NoFailure s := by
  refine reachable_induction NoFailure ?_ ?_ hs
  · simp [NoFailure, initState, tally]
  · intro s s' hr hN hstep
    have hinv := reachable_inv hr
    have hL := local_inv hr
    obtain ⟨hP, hC, hO⟩ := hN
    cases hstep with
    | spawn i hc hm hlt =>
      refine ⟨?_, hC, hO⟩
      simp only [tally_append, WorkerPC.isPanicking]
      omega
    | startFeed i hc hm hge => exact ⟨hP, hC, hO⟩
    | sendClosed email rest hc hm hcl =>
      have := hinv.closedIff.1 hcl
      simp [hm] at this
    | send email rest hc hm hcl hlen => exact ⟨hP, hC, hO⟩
    | closeClosed hc hm hcl =>
      have := hinv.closedIff.1 hcl
      simp [hm] at this
    | close hc hm hcl => exact ⟨hP, hC, hO⟩
    | waitDone hc hm hwg => exact ⟨hP, hC, hO⟩
    | recvItem i email q hc hm hw hq =>
      have hP' := tally_set WorkerPC.isPanicking s.workers i _ (.newReq email) hw
      simp only [WorkerPC.isPanicking] at hP'
      exact ⟨by dsimp only; omega, hC, hO⟩
    | recvExit i hc hm hw hq hcl =>
      have hP' := tally_set WorkerPC.isPanicking s.workers i _ .done hw
      have hA := tally_get_le WorkerPC.active s.workers i _ hw
      have hwg := hinv.wgCount
      simp only [WorkerPC.isPanicking, WorkerPC.active] at hP' hA
      rw [runDeferred_pos i _ s (by omega)]
      exact ⟨by dsimp only; omega, hC, hO⟩
    | newReq i email hc hm hw =>
      have hP' := tally_set WorkerPC.isPanicking s.workers i _
        (.addHeaders email (env.newRequest "GET" (GmailAPIBaseURL ++ email)).1) hw
      simp only [WorkerPC.isPanicking] at hP'
      have hold : email ∈ cfg.emails := hL.workers _ (List.get?_mem hw)
      obtain ⟨rq, rp, h1, _⟩ := oracle_expected horacle hold
      refine ⟨by dsimp only; omega, hC, ?_⟩
      simp only [h1, logIfErr]
      exact hO
    | addNil i email hc hm hw =>
      obtain ⟨hold, hreq⟩ : WorkerOK env cfg (.addHeaders email none) :=
        hL.workers _ (List.get?_mem hw)
      obtain ⟨rq, rp, h1, _⟩ := oracle_expected horacle hold
      rw [h1] at hreq
      exact absurd hreq (by simp)
    | addOk i email rq hc hm hw =>
      have hP' := tally_set WorkerPC.isPanicking s.workers i _ (.doReq email (addCommonHeaders rq)) hw
      simp only [WorkerPC.isPanicking] at hP'
      exact ⟨by dsimp only; omega, hC, hO⟩
    | doReq i email req hc hm hw =>
      have hP' := tally_set WorkerPC.isPanicking s.workers i _
        (.classify email (env.clientDo req).1) hw
      simp only [WorkerPC.isPanicking] at hP'
      obtain ⟨hold, hreq⟩ : WorkerOK env cfg (.doReq email req) :=
        hL.workers _ (List.get?_mem hw)
      obtain ⟨rq, rp, _, h2, h3, _⟩ := oracle_expected horacle hold
      rw [h2, Option.some.injEq] at hreq
      subst hreq
      refine ⟨by dsimp only; omega, hC, ?_⟩
      simp only [h3, logIfErr]
      exact hO
    | classifyNil i email hc hm hw =>
      obtain ⟨hold, rq', hreq, hresp⟩ : WorkerOK env cfg (.classify email none) :=
        hL.workers _ (List.get?_mem hw)
      obtain ⟨rq, rp, _, h2, h3, _⟩ := oracle_expected horacle hold
      rw [h2, Option.some.injEq] at hreq
      subst hreq
      rw [h3] at hresp
      exact absurd hresp (by simp)
    | classifyValid i email rp hc hm hw hck =>
      have hP' := tally_set WorkerPC.isPanicking s.workers i _ (.recv) hw
      simp only [WorkerPC.isPanicking] at hP'
      refine ⟨by dsimp only; omega, hC, ?_⟩
      intro r hr'
      simp only [List.mem_append, List.mem_singleton] at hr'
      rcases hr' with h | h
      · exact hO r h
      · subst h
        simp [Report.verdictOf]
    | classifyInvalid i email rp hc hm hw hck =>
      have hP' := tally_set WorkerPC.isPanicking s.workers i _ (.recv) hw
      simp only [WorkerPC.isPanicking] at hP'
      refine ⟨by dsimp only; omega, hC, ?_⟩
      intro r hr'
      simp only [List.mem_append, List.mem_singleton] at hr'
      rcases hr' with h | h
      · exact hO r h
      · subst h
        simp [Report.verdictOf]
    | abort i hc hm hw =>
      have := tally_get_le WorkerPC.isPanicking s.workers i _ hw
      simp only [WorkerPC.isPanicking] at this
      omega

theorem verdicts_length_of_all {out : List Report} (h : ∀ r ∈ out, r.verdictOf ≠ none) :
    (verdicts out).length = out.length := by
  induction out with
  | nil => rfl
  | cons r rs ih =>
    have hr := h r (List.mem_cons_self _ _)
    have ih' := ih (fun x hx => h x (List.mem_cons_of_mem _ hx))
    cases hv : r.verdictOf with
    | none => exact absurd hv hr
    | some e =>
      simp only [verdicts, List.filterMap_cons, hv, List.length_cons] at ih' ⊢
      omega

theorem mem_verdicts {out : List Report} {e : String} :
    e ∈ verdicts out ↔ (.valid e ∈ out ∨ .invalid e ∈ out) := by
  simp only [verdicts, List.mem_filterMap]
  constructor
  · rintro ⟨r, hr, hv⟩
    cases r <;> simp only [Report.verdictOf, Option.some.injEq] at hv
    · exact absurd hv (by simp)
    · exact absurd hv (by simp)
    · exact Or.inl (hv ▸ hr)
    · exact Or.inr (hv ▸ hr)
  · rintro (h | h)
    · exact ⟨_, h, rfl⟩
    · exact ⟨_, h, rfl⟩

/-- When `main` has returned and no worker has panicked, with at least one
worker, the addresses with a verdict line are the input addresses, each as
often as it occurs in the input. -/
theorem verdicts_perm {env : Env} {cfg : Config} {s : State} (hn : 1 ≤ cfg.noOfWorkers)
    (hs : Reachable env cfg s) (hret : s.main = .returned)
    (hp : tally WorkerPC.isPanicking s.workers = 0) : (verdicts s.out).Perm cfg.emails := by
  have hinv := reachable_inv hs
  obtain ⟨hact, _, hq⟩ := returned_all_done hs hret hp
  rw [List.perm_iff_count]
  intro a
  have hacc := hinv.acct hp a
  have hheld : tally (WorkerPC.heldCount a) s.workers ≤ tally WorkerPC.active s.workers := by
    apply tally_mono
    intro w
    cases w <;> simp only [WorkerPC.heldCount, WorkerPC.held, WorkerPC.active, List.count_nil,
      le_refl, Nat.zero_le]
    all_goals exact (List.count_le_length _ _).trans (by simp)
  rw [hq hn, hret] at hacc
  simp only [unsent, List.count_nil] at hacc
  omega

/-! ## The loop of the code and the sequential processing of the specification -/

theorem verifyOne_of_ok (env : Env) (email : String) (rq : Request) (rp : Response)
    (h1 : env.newRequest "GET" (GmailAPIBaseURL ++ email) = (some rq, none))
    (h2 : env.clientDo (addCommonHeaders rq) = (some rp, none)) :
    verifyOne env email =
      ([specVerify env (fun h => h.firstValueNonEmpty "Set-Cookie") email], false) := by
  simp only [verifyOne, h1, addHeadersOut, doReqOut, h2, logIfErr, classifyOut, specVerify,
    List.nil_append]
  by_cases hck : 0 < (rp.header.Get "Set-Cookie").length
  · have := (get_length_pos_iff _ _).1 hck
    simp [hck, this]
  · have : rp.header.firstValueNonEmpty "Set-Cookie" = false := by
      cases hf : rp.header.firstValueNonEmpty "Set-Cookie"
      · rfl
      · exact absurd ((get_length_pos_iff _ _).2 hf) hck
    simp [hck, this]

/-- Where no request fails, the loop of the code writes the lines of the
sequential processing of the specification, with the classification by the
first `Set-Cookie` value, and does not panic. -/
theorem loop_eq_spec_of_neverFails (env : Env) :
    ∀ (emails : List String), NeverFails env emails →
      verifyEmailLoop env emails =
        (specSequential env (fun h => h.firstValueNonEmpty "Set-Cookie") emails, false)
  | [], _ => rfl
  | e :: es, h => by
    obtain ⟨rq, rp, h1, h2⟩ := h e (List.mem_cons_self _ _)
    have ih := loop_eq_spec_of_neverFails env es
      (fun x hx => h x (List.mem_cons_of_mem _ hx))
    simp only [verifyEmailLoop, verifyOne_of_ok env e rq rp h1 h2, ih, andThen, specSequential,
      List.map_cons]
    simp

/-! ## Claims -/

/-- C9: for every input list and pool size at least 1, in every reachable state
the channel buffer holds at most 10 addresses, and the number of addresses in
flight (in the buffer or held by a worker) is at most 10 plus the pool size;
the bound also holds when every started worker, whatever its position, is
counted as holding an address. -/
theorem C9_queue_and_inflight_bounded (env : Env) (cfg : Config) (s : State)
    (hn : 1 ≤ cfg.noOfWorkers) (hs : Reachable env cfg s) :
    s.jobQ.length ≤ 10 ∧ (inFlight s : Int) ≤ 10 + cfg.noOfWorkers ∧
      ((s.jobQ.length + s.workers.length : Nat) : Int) ≤ 10 + cfg.noOfWorkers := by
  have hinv := reachable_inv hs
  have hlen := workers_length_le hs
  have hcap := hinv.cap
  have hhold : tally WorkerPC.holding s.workers ≤ s.workers.length :=
    tally_le_length _ (fun w => by cases w <;> simp [WorkerPC.holding, WorkerPC.held]) _
  simp only [jobQCap] at hcap
  refine ⟨hcap, ?_, by omega⟩
  simp only [inFlight]
  omega

/-- C7, as stated, fails: with one worker and the one address `a@gmail.com`,
whose response carries a `Set-Cookie` header with an empty value, `main`
returns after the line Invalid, while probing and classifying the address as
the specification describes gives Valid. -/
theorem C7_counterexample :
    ∃ s, run envEmptyCookie ⟨1, ["a@gmail.com"]⟩ schedOne initState = some s ∧
      s.main = .returned ∧ s.out = [.invalid "a@gmail.com"] ∧
      specSequential envEmptyCookie (fun h => h.carries "Set-Cookie") ["a@gmail.com"] =
        [.valid "a@gmail.com"] :=
  ⟨_, rfl, rfl, rfl, rfl⟩

/-- C7, amended: for pool size 1 and every input list on which no request
fails, the pipeline is strictly sequential processing in input order, with an
address classified Valid exactly when the first `Set-Cookie` value of its
response is not empty.  In every reachable state the lines written so far are
an initial part of the outcomes of `specSequential`; once the process has
exited, `main` has returned and the lines written are exactly those outcomes,
one per address in input order; and from every reachable state `main` can be
run on to its return. -/
theorem C7_pool_one_is_sequential_without_failures (env : Env) (emails : List String)
    (s : State) (hnf : NeverFails env emails) (hs : Reachable env ⟨1, emails⟩ s) :
    s.out <+: specSequential env (fun h => h.firstValueNonEmpty "Set-Cookie") emails ∧
      (Terminal s → s.main = .returned ∧
        s.out = specSequential env (fun h => h.firstValueNonEmpty "Set-Cookie") emails) ∧
      (∃ sched s', run env ⟨1, emails⟩ sched s = some s' ∧ s'.main = .returned) := by
  have hloop := loop_eq_spec_of_neverFails env emails hnf
  have hfacts : ∀ t, Reachable env ⟨1, emails⟩ t →
      t.out <+: specSequential env (fun h => h.firstValueNonEmpty "Set-Cookie") emails ∧
        (Terminal t → t.main = .returned ∧
          t.out = specSequential env (fun h => h.firstValueNonEmpty "Set-Cookie") emails) := by
    intro t ht
    have hI := @seq_inv env ⟨1, emails⟩ t rfl ht
    dsimp only at hI
    rw [hloop] at hI
    have hI1 := congrArg Prod.fst hI
    have hI2 := congrArg Prod.snd hI
    dsimp only at hI1 hI2
    refine ⟨by rw [hI1]; exact List.prefix_append _ _, fun hterm => ?_⟩
    obtain ⟨hnil, hcr⟩ := @seq_terminal env ⟨1, emails⟩ t rfl ht hterm
    have hcrf : t.crashed = false := by
      cases hc : t.crashed
      · rfl
      · have := hcr hc
        rw [← hI2] at this
        exact absurd this (by simp)
    refine ⟨?_, by rw [hI1, hnil]; simp⟩
    rcases hterm with h | h
    · exact h
    · rw [hcrf] at h
      exact absurd h (by simp)
  refine ⟨(hfacts s hs).1, (hfacts s hs).2, ?_⟩
  obtain ⟨sched, s', hrun, hterm⟩ := @exists_terminal env ⟨1, emails⟩ (le_refl _) _ s (le_refl _) hs
  exact ⟨sched, s', hrun, ((hfacts s' (reachable_run sched hs hrun)).2 hterm).1⟩

/-- C10: for every pool size that is 0 or negative, no worker is ever started
and no line is ever written.  With at most 10 addresses, `main` sends them all,
closes the channel and returns (in `len + 3` steps), with every address still
in the buffer, and that is the only state in which the run can end.  With more
than 10 addresses, after 11 steps `main` is blocked on the full channel with no
step enabled; that is the only state in which the run can end, and `main` never
returns. -/
theorem C10_nonpositive_pool (env : Env) (cfg : Config) (hn : cfg.noOfWorkers ≤ 0) :
    (∀ s, Reachable env cfg s → s.workers = [] ∧ s.out = []) ∧
      (cfg.emails.length ≤ 10 →
        run env cfg (List.replicate (cfg.emails.length + 3) .main) initState =
            some (zeroReturned cfg) ∧
          ∀ s, Reachable env cfg s → Stuck env cfg s → s = zeroReturned cfg) ∧
      (10 < cfg.emails.length →
        run env cfg (List.replicate 11 .main) initState = some (zeroFeed cfg 10) ∧
          Stuck env cfg (zeroFeed cfg 10) ∧
          (∀ s, Reachable env cfg s → Stuck env cfg s → s = zeroFeed cfg 10) ∧
          ∀ s, Reachable env cfg s → s.main ≠ .returned) := by
  have hstuck : ∀ s, Reachable env cfg s → Stuck env cfg s →
      (s = zeroReturned cfg ∧ cfg.emails.length ≤ 10) ∨
        (s = zeroFeed cfg 10 ∧ 10 < cfg.emails.length) := by
    intro s hs hst
    rcases zero_inv hn hs with h | ⟨k, hk, hkl, h⟩ | ⟨hl, h | h⟩
    · subst h
      have := hst .main
      rw [step_main_init env cfg hn] at this
      exact absurd this (by simp)
    · subst h
      by_cases hkl' : k < cfg.emails.length
      · by_cases hk' : k < 10
        · have := hst .main
          rw [step_main_zeroFeed env cfg k hk' hkl'] at this
          exact absurd this (by simp)
        · have hk10 : k = 10 := by omega
          subst hk10
          exact Or.inr ⟨rfl, hkl'⟩
      · have hke : k = cfg.emails.length := by omega
        subst hke
        have := hst .main
        rw [step_main_zeroFeed_close env cfg] at this
        exact absurd this (by simp)
    · subst h
      have := hst .main
      rw [step_main_zeroWait env cfg] at this
      exact absurd this (by simp)
    · exact Or.inl ⟨h, hl⟩
  refine ⟨?_, ?_, ?_⟩
  · intro s hs
    rcases zero_inv hn hs with h | ⟨k, _, _, h⟩ | ⟨_, h | h⟩ <;> subst h <;>
      simp [initState, zeroFeed, zeroWait, zeroReturned]
  · intro hl
    refine ⟨?_, ?_⟩
    · have h1 := run_zeroFeed env cfg hn cfg.emails.length hl (le_refl _)
      have h2 := run_replicate_succ env cfg _ _ _ _ h1 (step_main_zeroFeed_close env cfg)
      exact run_replicate_succ env cfg _ _ _ _ h2 (step_main_zeroWait env cfg)
    · intro s hs hst
      rcases hstuck s hs hst with ⟨h, _⟩ | ⟨_, h⟩
      · exact h
      · omega
  · intro hl
    refine ⟨run_zeroFeed env cfg hn 10 (le_refl _) (by omega), stuck_zeroFeed_full env cfg hl,
      ?_, ?_⟩
    · intro s hs hst
      rcases hstuck s hs hst with ⟨_, h⟩ | ⟨h, _⟩
      · omega
      · exact h
    · intro s hs hret
      rcases zero_inv hn hs with h | ⟨k, _, _, h⟩ | ⟨hl', _⟩
      · subst h; simp [initState] at hret
      · subst h; simp [zeroFeed] at hret
      · omega

/-- C5, as stated, fails: with pool size 0 and one address, `main` does not
reject the configuration; it reaches a state in which the address has been
enqueued, with no worker and no error. -/
theorem C5_counterexample :
    ∃ s, Reachable envTimeout ⟨0, ["a@gmail.com"]⟩ s ∧ s.jobQ = ["a@gmail.com"] ∧
      s.workers = [] ∧ s.crashed = false :=
  ⟨_, ⟨[.main, .main], rfl⟩, rfl, rfl, rfl⟩

/-- C5, amended: for every pool size that is 0 or negative, `main` starts no
worker and raises no error, but it does not reject the configuration: its first
step leaves the start loop and goes to the send loop, and its second step
enqueues the first address. -/
theorem C5_nonpositive_pool_not_rejected (env : Env) (cfg : Config)
    (hn : cfg.noOfWorkers ≤ 0) :
    (∀ s, Reachable env cfg s → s.workers = [] ∧ s.wg = 0 ∧ s.crashed = false) ∧
      step env cfg .main initState = some { initState with main := .feed cfg.emails } ∧
      (∀ e rest, cfg.emails = e :: rest →
        run env cfg [.main, .main] initState =
          some { initState with main := .feed rest, jobQ := [e] }) := by
  refine ⟨?_, ?_, ?_⟩
  · intro s hs
    rcases zero_inv hn hs with h | ⟨k, _, _, h⟩ | ⟨_, h | h⟩ <;> subst h <;>
      simp [initState, zeroFeed, zeroWait, zeroReturned]
  · rw [step_main_init env cfg hn]
    simp [zeroFeed, initState]
  · intro e rest he
    have h1 := run_zeroFeed env cfg hn 1 (by omega) (by simp [he])
    rw [show List.replicate (1 + 1) Action.main = [.main, .main] from rfl] at h1
    rw [h1]
    simp [zeroFeed, initState, he]

/-- Witness for `C5_nonpositive_pool_not_rejected`: pool size -1 and two
addresses. -/
theorem C5_nonpositive_pool_not_rejected_witness :
    run envTimeout ⟨-1, ["a@gmail.com", "b@gmail.com"]⟩ [.main, .main] initState =
      some { initState with main := .feed ["b@gmail.com"], jobQ := ["a@gmail.com"] } :=
  (C5_nonpositive_pool_not_rejected envTimeout ⟨-1, ["a@gmail.com", "b@gmail.com"]⟩
    (by decide)).2.2 "a@gmail.com" ["b@gmail.com"] rfl

/-- Witness for `C10_nonpositive_pool`: pool size 0 and two addresses; `main`
returns after 5 steps with both addresses still in the buffer. -/
theorem C10_nonpositive_pool_witness :
    run envTimeout ⟨0, ["a@gmail.com", "b@gmail.com"]⟩ (List.replicate 5 .main) initState =
      some (zeroReturned ⟨0, ["a@gmail.com", "b@gmail.com"]⟩) :=
  ((C10_nonpositive_pool envTimeout ⟨0, ["a@gmail.com", "b@gmail.com"]⟩ (by decide)).2.1
    (by decide)).1

/-- Witness for `C9_queue_and_inflight_bounded`: two workers, one address, the
state after the first worker has received the address. -/
theorem C9_queue_and_inflight_bounded_witness :
    ∃ s, run envTimeout ⟨2, ["b@gmail.com"]⟩ [.main, .main, .main, .main, .worker 0] initState =
        some s ∧ inFlight s = 1 ∧ (inFlight s : Int) ≤ 10 + 2 :=
  ⟨_, rfl, rfl,
    (C9_queue_and_inflight_bounded envTimeout ⟨2, ["b@gmail.com"]⟩ _ (by decide)
      ⟨[.main, .main, .main, .main, .worker 0], rfl⟩).2.1⟩

/-- Witness for `C7_pool_one_is_sequential_without_failures`: one worker and three
addresses of which the first and the third get a cookie; `main` returns after
the three verdict lines in input order. -/
theorem C7_pool_one_is_sequential_without_failures_witness :
    ∃ s, run envSubset ⟨1, ["a@gmail.com", "b@gmail.com", "c@gmail.com"]⟩
          schedOneThree initState = some s ∧
        s.out = [.valid "a@gmail.com", .invalid "b@gmail.com", .valid "c@gmail.com"] ∧
        (s.main = .returned ∧
          s.out = specSequential envSubset (fun h => h.firstValueNonEmpty "Set-Cookie")
            ["a@gmail.com", "b@gmail.com", "c@gmail.com"]) :=
  ⟨_, rfl, rfl,
    (C7_pool_one_is_sequential_without_failures envSubset
      ["a@gmail.com", "b@gmail.com", "c@gmail.com"] _
      (by
        intro e he
        simp only [List.mem_cons, List.mem_singleton, List.not_mem_nil, or_false] at he
        rcases he with rfl | rfl | rfl
        · exact ⟨_, _, rfl, rfl⟩
        · exact ⟨_, _, rfl, rfl⟩
        · exact ⟨_, _, rfl, rfl⟩)
      ⟨schedOneThree, rfl⟩).2.1
      (Or.inl rfl)⟩

/-- C1, evaluated at a failing input: one worker, one address, and a `client.Do`
that returns both a response and an error (redirect limit).  Function `main`
returns after two outcomes, an Error and an Invalid, have been reported for the
one input address. -/
theorem C1_two_outcomes_for_one_address :
    ∃ s, run envRedirect ⟨1, ["a@gmail.com"]⟩ schedOne initState = some s ∧
      s.main = .returned ∧ s.crashed = false ∧
      s.out = [.errorVerifying "stopped after 10 redirects" "a@gmail.com",
        .invalid "a@gmail.com"] :=
  ⟨_, rfl, rfl, rfl, rfl⟩

/-- C3, evaluated at a failing input: one worker, two addresses, and a
`client.Do` that fails without a response for the first.  The worker writes the
error line, then reads the missing response and panics; the process is aborted
and the second address, which would be Valid, is never received. -/
theorem C3_transport_failure_panics :
    ∃ s, run envTimeout ⟨1, ["a@gmail.com", "b@gmail.com"]⟩
          [.main, .main, .main, .main, .worker 0, .worker 0, .worker 0, .worker 0, .worker 0,
            .worker 0] initState = some s ∧
        s.crashed = true ∧ s.jobQ = ["b@gmail.com"] ∧
        s.out = [.errorVerifying "timeout" "a@gmail.com"] ∧
        (verifyEmailLoop envTimeout ["a@gmail.com", "b@gmail.com"]) =
          ([.errorVerifying "timeout" "a@gmail.com"], true) :=
  ⟨_, rfl, rfl, rfl, rfl, rfl⟩

/-- C4, evaluated at a failing input: one worker, two addresses, and an
`http.NewRequest` that fails for the first.  The worker writes the error line,
then adds a header to the nil request and panics; the process is aborted and
the second address is never received. -/
theorem C4_request_failure_panics :
    ∃ s, run envBadRequest ⟨1, ["a#%zz", "b@gmail.com"]⟩
          [.main, .main, .main, .main, .worker 0, .worker 0, .worker 0, .worker 0] initState =
          some s ∧
        s.crashed = true ∧ s.jobQ = ["b@gmail.com"] ∧
        s.out = [.errorCreating "parse error" "a#%zz"] ∧
        (verifyEmailLoop envBadRequest ["a#%zz", "b@gmail.com"]) =
          ([.errorCreating "parse error" "a#%zz"], true) :=
  ⟨_, rfl, rfl, rfl, rfl, rfl⟩

/-- C2, as stated, fails: a response that carries a `Set-Cookie` header whose
value is empty is classified Invalid.  The state is reached with one worker and
one address; the worker is at line 88 with that response. -/
theorem C2_counterexample :
    ∃ s s', Reachable envEmptyCookie ⟨1, ["a@gmail.com"]⟩ s ∧
      s.workers = [.classify "a@gmail.com" (some (cookieResponse ""))] ∧
      (cookieResponse "").header.carries "Set-Cookie" = true ∧
      step envEmptyCookie ⟨1, ["a@gmail.com"]⟩ (.worker 0) s = some s' ∧
      s'.out = [.invalid "a@gmail.com"] :=
  ⟨_, _, ⟨[.main, .main, .main, .worker 0, .worker 0, .worker 0, .worker 0], rfl⟩, rfl, rfl,
    rfl, rfl⟩

/-- C2, amended: for every probe response, a worker at line 88 writes exactly
one line, Valid if the first `Set-Cookie` value of the response is a non-empty
string and Invalid otherwise, goes back to the channel, and neither writes an
error nor panics; in particular a response with no `Set-Cookie` header is
Invalid. -/
theorem C2_classification_by_first_cookie_value (env : Env) (cfg : Config) (s : State)
    (i : Nat) (email : String) (rp : Response) (hterm : ¬ Terminal s)
    (hw : s.workers.get? i = some (.classify email (some rp))) :
    step env cfg (.worker i) s =
        some { s with
          out := s.out ++ [if rp.header.firstValueNonEmpty "Set-Cookie" then .valid email
            else .invalid email],
          workers := s.workers.set i .recv } ∧
      (rp.header.carries "Set-Cookie" = false →
        rp.header.firstValueNonEmpty "Set-Cookie" = false) := by
  refine ⟨?_, carries_false_first _ _⟩
  rw [step_worker_alive env cfg s i hterm]
  simp only [stepWorker, hw]
  by_cases hck : 0 < (rp.header.Get "Set-Cookie").length
  · have := (get_length_pos_iff _ _).1 hck
    simp [hck, this]
  · have : rp.header.firstValueNonEmpty "Set-Cookie" = false := by
      cases hf : rp.header.firstValueNonEmpty "Set-Cookie"
      · rfl
      · exact absurd ((get_length_pos_iff _ _).2 hf) hck
    simp [hck, this]

/-- Witness for `C2_classification_by_first_cookie_value`: a worker at line 88
with a response that sets a cookie writes the Valid line. -/
theorem C2_classification_by_first_cookie_value_witness :
    step envTimeout ⟨1, ["b@gmail.com"]⟩ (.worker 0)
        { main := .wait, jobQ := [], closed := true, wg := 1,
          workers := [.classify "b@gmail.com" (some (cookieResponse "GMAIL_RTT=1"))],
          out := [], crashed := false } =
      some
        { main := .wait, jobQ := [], closed := true, wg := 1, workers := [.recv],
          out := [.valid "b@gmail.com"], crashed := false } :=
  (C2_classification_by_first_cookie_value envTimeout ⟨1, ["b@gmail.com"]⟩
    { main := .wait, jobQ := [], closed := true, wg := 1,
      workers := [.classify "b@gmail.com" (some (cookieResponse "GMAIL_RTT=1"))],
      out := [], crashed := false } 0 "b@gmail.com" (cookieResponse "GMAIL_RTT=1")
    (by decide) rfl).1

/-- C8, as stated, fails: with pool size 0 and the one address `a@gmail.com`,
`main` enqueues the address, closes the channel and returns; the address was
enqueued before the close and is never delivered, as there is no worker and the
process has exited with the address still in the buffer. -/
theorem C8_counterexample :
    ∃ s, run envTimeout ⟨0, ["a@gmail.com"]⟩ [.main, .main, .main, .main] initState = some s ∧
      s.main = .returned ∧ s.closed = true ∧ s.jobQ = ["a@gmail.com"] ∧ s.workers = [] ∧
      s.out = [] :=
  ⟨_, rfl, rfl, rfl, rfl, rfl, rfl⟩

/-- C8, amended: in every reachable state the channel is closed exactly when
`main` is past its close statement, so it has been closed whenever `main` has
returned.  A step never reopens a closed channel and never adds an element to
it; the only step that closes the channel is the step of `main` at the end of
the send loop, when every address has been sent, and it keeps the buffer;
`main` never panics (no send on, and no second close of, a closed channel).  A
worker that receives from the closed channel while the buffer is not empty gets
the oldest buffered address.  With at least one worker, when `main` has
returned and no worker has panicked, the buffer is empty and every input
address has been received and has its verdict line; with a pool size that is 0
or negative there is no worker to deliver to and nothing is written. -/
theorem C8_closed_once_after_last_send_keeps_buffer (env : Env) (cfg : Config) (s : State)
    (hs : Reachable env cfg s) :
    (s.closed = true ↔ (s.main = .wait ∨ s.main = .returned)) ∧
      (∀ a s', step env cfg a s = some s' →
        (s.closed = true →
          s'.closed = true ∧ (s'.jobQ = s.jobQ ∨ ∃ e, s.jobQ = e :: s'.jobQ)) ∧
        (s.closed = false → s'.closed = true →
          a = .main ∧ s.main = .feed [] ∧ s'.jobQ = s.jobQ) ∧
        (a = .main → s'.crashed = false)) ∧
      (∀ i e q, ¬ Terminal s → s.closed = true → s.jobQ = e :: q →
        s.workers.get? i = some .recv →
        step env cfg (.worker i) s =
          some { s with jobQ := q, workers := s.workers.set i (.newReq e) }) ∧
      (1 ≤ cfg.noOfWorkers → s.main = .returned →
        tally WorkerPC.isPanicking s.workers = 0 →
        s.jobQ = [] ∧ (verdicts s.out).Perm cfg.emails) ∧
      (cfg.noOfWorkers ≤ 0 → s.workers = [] ∧ s.out = []) := by
  have hinv := reachable_inv hs
  refine ⟨hinv.closedIff, fun a s' h => closed_step_facts hinv h, ?_, ?_, ?_⟩
  · intro i e q hterm _ hq hw
    rw [step_worker_alive env cfg s i hterm]
    simp only [stepWorker, hw, hq]
  · intro hn hret hp
    exact ⟨(returned_all_done hs hret hp).2.2 hn, verdicts_perm hn hs hret hp⟩
  · intro hn
    rcases zero_inv hn hs with h | ⟨k, _, _, h⟩ | ⟨_, h | h⟩ <;> subst h <;>
      simp [initState, zeroFeed, zeroWait, zeroReturned]

/-- Witness for `C8_closed_once_after_last_send_keeps_buffer`: one worker and
one address; in the state after `main` has sent and closed, the waiting worker
still receives the buffered address. -/
theorem C8_closed_once_after_last_send_keeps_buffer_witness :
    ∃ s, run envTimeout ⟨1, ["b@gmail.com"]⟩ [.main, .main, .main, .main] initState = some s ∧
      s.closed = true ∧ s.jobQ = ["b@gmail.com"] ∧
      step envTimeout ⟨1, ["b@gmail.com"]⟩ (.worker 0) s =
        some { s with jobQ := [], workers := s.workers.set 0 (.newReq "b@gmail.com") } :=
  ⟨_, rfl, rfl, rfl,
    (C8_closed_once_after_last_send_keeps_buffer envTimeout ⟨1, ["b@gmail.com"]⟩ _
      ⟨[.main, .main, .main, .main], rfl⟩).2.2.1 0 "b@gmail.com" [] (by decide) rfl rfl rfl⟩

/-- C6, as stated, fails: the oracle never fails and returns a `Set-Cookie`
header exactly for the addresses of `S = [a@gmail.com]`, the whole input; with
one worker `main` returns with the address reported Invalid and not Valid,
because the value of the header is empty. -/
theorem C6_counterexample :
    OracleFor envEmptyCookie ["a@gmail.com"] ["a@gmail.com"]
        (fun h => h.carries "Set-Cookie") ∧
      ∃ s, run envEmptyCookie ⟨1, ["a@gmail.com"]⟩ schedOne initState = some s ∧
        s.main = .returned ∧ Report.valid "a@gmail.com" ∉ s.out ∧
        Report.invalid "a@gmail.com" ∈ s.out := by
  refine ⟨?_, _, rfl, rfl, by decide, by decide⟩
  intro e he
  simp only [List.mem_singleton] at he
  subst he
  exact ⟨_, _, rfl, rfl, by decide⟩

/-- C6, amended: given a probe oracle that never fails on the input addresses
and whose response has a non-empty first `Set-Cookie` value exactly for the
addresses of a subset `S` of the input, for every pool size at least 1 and
every schedule: when `main` has returned, the addresses reported Valid are
exactly those of `S`, the addresses reported Invalid are exactly the input
addresses outside `S`, the verdict lines are one per input address and there is
no other line; and from every reachable state `main` can be run on to its
return. -/
theorem C6_verdicts_independent_of_schedule (env : Env) (cfg : Config) (S : List String)
    (hn : 1 ≤ cfg.noOfWorkers) (hS : ∀ e ∈ S, e ∈ cfg.emails)
    (horacle : OracleFor env cfg.emails S (fun h => h.firstValueNonEmpty "Set-Cookie")) :
    (∀ s, Reachable env cfg s → s.main = .returned →
        (∀ e, .valid e ∈ s.out ↔ e ∈ S) ∧
        (∀ e, .invalid e ∈ s.out ↔ (e ∈ cfg.emails ∧ e ∉ S)) ∧
        (verdicts s.out).Perm cfg.emails ∧ s.out.length = cfg.emails.length) ∧
      (∀ s, Reachable env cfg s →
        ∃ sched s', run env cfg sched s = some s' ∧ s'.main = .returned) := by
  refine ⟨?_, ?_⟩
  · intro s hs hret
    obtain ⟨hP, hC, hO⟩ := no_failure horacle hs
    have hL := local_inv hs
    have hperm := verdicts_perm hn hs hret hP
    have hvalid : ∀ e, .valid e ∈ s.out → e ∈ S := by
      intro e he
      obtain ⟨hmem, rp, hrp, hck⟩ : ReportOK env cfg (.valid e) := hL.out _ he
      obtain ⟨rq, rp', _, _, _, hrp', hiff⟩ := oracle_expected horacle hmem
      rw [hrp', Option.some.injEq] at hrp
      subst hrp
      exact hiff.1 ((get_length_pos_iff _ _).1 hck)
    have hinvalid : ∀ e, .invalid e ∈ s.out → e ∈ cfg.emails ∧ e ∉ S := by
      intro e he
      obtain ⟨hmem, rp, hrp, hck⟩ : ReportOK env cfg (.invalid e) := hL.out _ he
      obtain ⟨rq, rp', _, _, _, hrp', hiff⟩ := oracle_expected horacle hmem
      rw [hrp', Option.some.injEq] at hrp
      subst hrp
      exact ⟨hmem, fun hin => hck ((get_length_pos_iff _ _).2 (hiff.2 hin))⟩
    have hsome : ∀ e, e ∈ cfg.emails → .valid e ∈ s.out ∨ .invalid e ∈ s.out := by
      intro e he
      exact mem_verdicts.1 (hperm.mem_iff.2 he)
    refine ⟨?_, ?_, hperm, ?_⟩
    · intro e
      refine ⟨hvalid e, fun he => ?_⟩
      rcases hsome e (hS e he) with h | h
      · exact h
      · exact absurd he (hinvalid e h).2
    · intro e
      refine ⟨hinvalid e, fun he => ?_⟩
      rcases hsome e he.1 with h | h
      · exact absurd (hvalid e h) he.2
      · exact h
    · rw [← verdicts_length_of_all hO]
      exact hperm.length_eq
  · intro s hs
    obtain ⟨sched, s', hrun, hterm⟩ := exists_terminal hn _ s (le_refl _) hs
    refine ⟨sched, s', hrun, ?_⟩
    have hs' := reachable_run sched hs hrun
    obtain ⟨_, hC, _⟩ := no_failure horacle hs'
    rcases hterm with h | h
    · exact h
    · rw [hC] at h
      exact absurd h (by simp)

/-- Witness for `C6_verdicts_independent_of_schedule`: three addresses of which
the first and the third get a cookie, two workers, a schedule in which the
workers interleave; `main` returns with one verdict line per address. -/
theorem C6_verdicts_independent_of_schedule_witness :
    ∃ s, run envSubset ⟨2, ["a@gmail.com", "b@gmail.com", "c@gmail.com"]⟩ schedTwo initState =
        some s ∧ s.main = .returned ∧
      s.out = [.valid "a@gmail.com", .invalid "b@gmail.com", .valid "c@gmail.com"] ∧
      (verdicts s.out).Perm ["a@gmail.com", "b@gmail.com", "c@gmail.com"] :=
  ⟨_, rfl, rfl, rfl,
    ((C6_verdicts_independent_of_schedule envSubset
      ⟨2, ["a@gmail.com", "b@gmail.com", "c@gmail.com"]⟩ ["a@gmail.com", "c@gmail.com"]
      (by decide) (by decide)
      (by
        intro e he
        simp only [List.mem_cons, List.mem_singleton, List.not_mem_nil, or_false] at he
        rcases he with rfl | rfl | rfl
        · exact ⟨_, _, rfl, rfl, by decide⟩
        · exact ⟨_, _, rfl, rfl, by decide⟩
        · exact ⟨_, _, rfl, rfl, by decide⟩)).1 _ ⟨schedTwo, rfl⟩ rfl).2.2.1⟩

end GmailVerifier
